import Mathlib

/-!
wasm-jit-prototype: the opcode catalog, the POSIX fault-to-exception bridge and the
S-expression node stream

A shallow embedding of

* `Source/AST/ASTOpcodes.h`: the `ENUM_AST_*` opcode lists and the five `ClassOp`
  enumerations built from them;
* `Source/Runtime/RuntimePOSIX.cpp`: `initSignalStack`, `signalHandler`,
  `catchRuntimeExceptions`, `raiseException` and `captureExecutionContext`;
* `Source/Core/SExpressions.h`: `Node`, `NodeIt` and `NodeOutputStream`.

An opcode list is the list of the enumerator identifiers that its `#define` expands
to, in expansion order.  A C++ enumeration numbers its enumerators from 0 in declaration order.
-/

namespace AST

/-! ## `ASTOpcodes.h`: the opcode lists -/

/-- Expansion of `ENUM_AST_OPS_Any()`: the opcodes shared by every class. -/
def ENUM_AST_OPS_Any : List String :=
  ["error",
   "getLocal",
   "setLocal",
   "load", "store",
   "callDirect", "callImport", "callIndirect",
   "loop", "ifElse", "select", "label", "sequence",
   "branch", "branchTable", "ret", "unreachable"]

/-- Expansion of `ENUM_AST_UNARY_OPS_Int()`. -/
def ENUM_AST_UNARY_OPS_Int : List String :=
  ["neg", "abs", "bitwiseNot", "clz", "ctz", "popcnt"]

/-- Expansion of `ENUM_AST_BINARY_OPS_Int()`. -/
def ENUM_AST_BINARY_OPS_Int : List String :=
  ["add", "sub", "mul", "divs", "divu", "rems", "remu",
   "bitwiseAnd", "bitwiseOr", "bitwiseXor",
   "shl", "shrSExt", "shrZExt", "rotl", "rotr"]

/-- Expansion of `ENUM_AST_CAST_OPS_Int()`. -/
def ENUM_AST_CAST_OPS_Int : List String :=
  ["wrap", "truncSignedFloat", "truncUnsignedFloat", "sext", "zext", "reinterpretFloat"]

/-- Expansion of `ENUM_AST_COMPARISON_OPS()`. -/
def ENUM_AST_COMPARISON_OPS : List String :=
  ["eq", "ne",
   "lts", "ltu", "lt",
   "les", "leu", "le",
   "gts", "gtu", "gt",
   "ges", "geu", "ge"]

/-- Expansion of `ENUM_AST_OPS_Int()`. -/
def ENUM_AST_OPS_Int : List String :=
  ENUM_AST_OPS_Any
    ++ ENUM_AST_UNARY_OPS_Int
    ++ ENUM_AST_BINARY_OPS_Int
    ++ ENUM_AST_CAST_OPS_Int
    ++ ENUM_AST_COMPARISON_OPS
    ++ ["lit", "loadZExt", "loadSExt", "hasFeature"]

/-- Expansion of `ENUM_AST_UNARY_OPS_Float()`. -/
def ENUM_AST_UNARY_OPS_Float : List String :=
  ["neg", "abs", "ceil", "floor", "trunc", "nearestInt", "sqrt"]

/-- Expansion of `ENUM_AST_BINARY_OPS_Float()`. -/
def ENUM_AST_BINARY_OPS_Float : List String :=
  ["add", "sub", "mul", "div", "rem", "min", "max", "copySign"]

/-- Expansion of `ENUM_AST_CAST_OPS_Float()`. -/
def ENUM_AST_CAST_OPS_Float : List String :=
  ["convertSignedInt", "convertUnsignedInt", "promote", "demote", "reinterpretInt"]

/-- Expansion of `ENUM_AST_OPS_Float()`. -/
def ENUM_AST_OPS_Float : List String :=
  ENUM_AST_OPS_Any
    ++ ENUM_AST_UNARY_OPS_Float
    ++ ENUM_AST_BINARY_OPS_Float
    ++ ENUM_AST_CAST_OPS_Float
    ++ ["lit"]

/-- Expansion of `ENUM_AST_OPS_Void()`. -/
def ENUM_AST_OPS_Void : List String :=
  ENUM_AST_OPS_Any ++ ["discardResult", "nop"] ++ ["branchIf"]

/-- Expansion of `ENUM_AST_OPS_None()`. -/
def ENUM_AST_OPS_None : List String := ENUM_AST_OPS_Any

/-! ## The `ClassOp` enumerations -/

/-- The expansion of an opcode list under `#define AST_OP(op) op,` inside an
`enum class`: the first enumerator gets the value `next`, each later one the value of
its predecessor plus one. -/
def enumerate : List String → Nat → List (String × Nat)
  | [], _ => []
  | op :: rest, next => (op, next) :: enumerate rest (next + 1)

/-- The five opcode classes for which a `ClassOp` enumeration is defined. -/
inductive TypeClass where
  | Any
  | Int
  | Float
  | Void
  | None
  deriving DecidableEq, Repr

/-- The enumeration `enum class AnyOp : uint8 { ENUM_AST_OPS_Any() };` -/
def AnyOp : List (String × Nat) := enumerate ENUM_AST_OPS_Any 0

/-- The enumeration `enum class IntOp : uint8 { ENUM_AST_OPS_Int() };` -/
def IntOp : List (String × Nat) := enumerate ENUM_AST_OPS_Int 0

/-- The enumeration `enum class FloatOp : uint8 { ENUM_AST_OPS_Float() };` -/
def FloatOp : List (String × Nat) := enumerate ENUM_AST_OPS_Float 0

/-- The enumeration `enum class VoidOp : uint8 { ENUM_AST_OPS_Void() };` -/
def VoidOp : List (String × Nat) := enumerate ENUM_AST_OPS_Void 0

/-- The enumeration `enum class NoneOp : uint8 { ENUM_AST_OPS_None() };` -/
def NoneOp : List (String × Nat) := enumerate ENUM_AST_OPS_None 0

/-- The declared opcodes of a class, each with its numeric code. -/
def classOps : TypeClass → List (String × Nat)
  | .Any => AnyOp
  | .Int => IntOp
  | .Float => FloatOp
  | .Void => VoidOp
  | .None => NoneOp

/-- The opcode names of a class. -/
def opNames (c : TypeClass) : List String := (classOps c).map Prod.fst

/-- Modelled from the spec: the body of `getOpName` (only its declaration,
`const char* getOpName(className##Op op)`, is in `ASTOpcodes.h`).  The spec's
`nameOf(class, code)` returns the name that the class's table pairs with the code;
a code outside the declared set has no defined name, rendered here as `none`. -/
def getOpName (c : TypeClass) (op : Nat) : Option String :=
  ((classOps c).find? (fun entry => entry.2 == op)).map Prod.fst

end AST

/-! ## `RuntimePOSIX.cpp`: the fault-to-exception bridge

Pointers are addresses of a 64-bit flat address space (`Nat` taken modulo `2 ^ 64`
after each arithmetic step); a pointer that the code tests against `nullptr` is an
`Option`.  The process is followed on one thread.

The thunk is any function from the state it is called in to the way it ends and the
state at that moment, so it may change every part of the state, the signal
dispositions and the jump buffer included (a nested `catchRuntimeExceptions` does
both).  `sigsetjmp` / `siglongjmp` are followed through the activation recorded in
`setjmpEnv`: a jump resumes an activation exactly when the buffer is the one that
activation filled.  The locals `oldSignalActionSEGV`, `oldSignalActionBUS` and
`oldSignalActionFPE` live in the frame of the activation and keep, after a jump back,
the values stored in them before the thunk ran. -/

namespace Runtime

/-- Modelled from the spec: `Exception::Cause` (the `Runtime` headers are not part of
the sources at hand).  The four causes the fault classifier can produce, and the
causes that only an explicitly raised exception carries. -/
inductive Cause where
  | Unknown
  | IntegerDivideByZeroOrIntegerOverflow
  | StackOverflow
  | AccessViolation
  | explicit (code : Nat)
  deriving DecidableEq, Repr

/-- Modelled from the spec: one stack frame of an `ExecutionContext`, an instruction
pointer and a reserved offset. -/
structure StackFrame where
  ip : Nat
  ipOffset : Nat
  deriving DecidableEq, Repr

/-- Modelled from the spec: `Runtime::ExecutionContext`, an ordered sequence of stack
frames. -/
structure ExecutionContext where
  stackFrames : List StackFrame
  deriving DecidableEq, Repr

/-- Modelled from the spec: `Runtime::Exception`, a cause and an execution context
(empty when none was captured).  `Exception {cause}` in the source initialises the
cause only. -/
structure Exception where
  cause : Cause
  executionContext : ExecutionContext := ExecutionContext.mk []
  deriving DecidableEq, Repr

/-- An `Exception*` that is not null: the index of the object in the heap of
exceptions. -/
abbrev ExceptionPtr := Nat

/-- Modelled from the spec: `Runtime::Value`, either a success payload or a pointer
to an exception. -/
inductive Value where
  | payload (bits : Nat)
  | exception (e : ExceptionPtr)
  deriving DecidableEq, Repr

end Runtime

namespace RuntimePlatform

open Runtime

/-- The constants of `<signal.h>` that the source names.  The three signal numbers
are the labels of one `switch`, hence pairwise distinct. -/
structure SignalABI where
  SIGFPE : Int
  SIGSEGV : Int
  SIGBUS : Int
  FPE_INTDIV : Int
  SA_SIGINFO : Nat
  SA_ONSTACK : Nat
  SIGSTKSZ : Nat
  fpe_ne_segv : SIGFPE ≠ SIGSEGV
  fpe_ne_bus : SIGFPE ≠ SIGBUS
  segv_ne_bus : SIGSEGV ≠ SIGBUS

/-- The values of the constants on Linux/x86-64. -/
def linuxABI : SignalABI where
  SIGFPE := 8
  SIGSEGV := 11
  SIGBUS := 7
  FPE_INTDIV := 1
  SA_SIGINFO := 4
  SA_ONSTACK := 0x08000000
  SIGSTKSZ := 8192
  fpe_ne_segv := by decide
  fpe_ne_bus := by decide
  segv_ne_bus := by decide

/-- What `sa_sigaction` / `sa_handler` of a `struct sigaction` can point to. -/
inductive SaHandler where
  | SIG_DFL
  | SIG_IGN
  | signalHandler
  | foreign (fn : Nat)
  deriving DecidableEq, Repr

/-- The fields of `struct sigaction` that the source sets. -/
structure SigAction where
  sa_sigaction : SaHandler
  sa_mask : List Int
  sa_flags : Nat
  deriving DecidableEq, Repr

/-- The fields of `siginfo_t` that `signalHandler` reads. -/
structure SigInfo where
  si_code : Int
  si_addr : Nat
  deriving DecidableEq, Repr

/-- The `stack_t` handed to `sigaltstack`. -/
structure StackT where
  ss_sp : Nat
  ss_flags : Int
  ss_size : Nat
  deriving DecidableEq, Repr

/-- The thread-local variables of `RuntimePOSIX.cpp`, the dispositions of the three
monitored signals, the alternate stack registered with the kernel, and the heap of
`Exception` objects.  `setjmpEnv` holds the activation of `catchRuntimeExceptions`
whose `sigsetjmp` filled the buffer last. -/
structure State where
  setjmpEnv : Option Nat
  exceptionCause : Cause
  exception : Option ExceptionPtr
  signalStack : Option Nat
  stackMinAddr : Nat
  stackSize : Nat
  actionSEGV : SigAction
  actionBUS : SigAction
  actionFPE : SigAction
  altStack : Option StackT
  heap : List Exception
  deriving DecidableEq, Repr

/-- What the host answers inside one call of `initSignalStack`: the address `new`
returns, the result of `sigaltstack`, `rlim_cur` of `RLIMIT_STACK`, and the address
of the local `signalStackInfo`. -/
structure HostCalls where
  newAddr : Nat
  sigaltstackResult : Int
  rlim_cur : Nat
  signalStackInfoAddr : Nat
  deriving DecidableEq, Repr

/-- Pointer plus byte offset. -/
def ptrAdd (p n : Nat) : Nat := (p + n) % 2 ^ 64

/-- Pointer minus byte offset. -/
def ptrSub (p n : Nat) : Nat := (p % 2 ^ 64 + 2 ^ 64 - n % 2 ^ 64) % 2 ^ 64

/-- The function `initSignalStack`.  `none` is the `throw;` taken when `sigaltstack` fails: no
exception is active there, so the process terminates. -/
def initSignalStack (abi : SignalABI) (host : HostCalls) (s : State) : Option State :=
  match s.signalStack with
  | some _ => some s
  | none =>
    let s1 := { s with signalStack := some host.newAddr }
    let signalStackInfo : StackT :=
      { ss_size := abi.SIGSTKSZ, ss_sp := host.newAddr, ss_flags := 0 }
    if host.sigaltstackResult < 0 then
      none
    else
      let s2 := { s1 with altStack := some signalStackInfo }
      let s3 := { s2 with stackSize := host.rlim_cur % 2 ^ 64 }
      some { s3 with stackMinAddr := ptrSub host.signalStackInfoAddr s3.stackSize }

/-- The test `si_addr > stackMinAddr - 16384 && si_addr < stackMinAddr + 16384` of
`signalHandler`. -/
def inStackWindow (stackMinAddr si_addr : Nat) : Bool :=
  decide (si_addr > ptrSub stackMinAddr 16384) && decide (si_addr < ptrAdd stackMinAddr 16384)

/-- The function `signalHandler`, up to its `siglongjmp`: the cause derived from the signal is
stored in `exceptionCause`. -/
def signalHandler (abi : SignalABI) (signalNumber : Int) (signalInfo : SigInfo)
    (s : State) : State :=
  let s1 := { s with exceptionCause := Cause.Unknown }
  if signalNumber = abi.SIGFPE then
    if signalInfo.si_code = abi.FPE_INTDIV then
      { s1 with exceptionCause := Cause.IntegerDivideByZeroOrIntegerOverflow }
    else s1
  else if signalNumber = abi.SIGSEGV ∨ signalNumber = abi.SIGBUS then
    { s1 with exceptionCause :=
        if inStackWindow s1.stackMinAddr signalInfo.si_addr
        then Cause.StackOverflow
        else Cause.AccessViolation }
  else s1

/-- The function `raiseException`, up to its `longjmp`. -/
def raiseException (inException : Option ExceptionPtr) (s : State) : State :=
  { s with exception := inException }

/-- The expression `new Exception {cause}`: the object is placed at a fresh heap index. -/
def newException (cause : Cause) (s : State) : ExceptionPtr × State :=
  (s.heap.length, { s with heap := s.heap ++ [{ cause := cause }] })

/-- How a run of the thunk ends, with the state at that moment: it returns a value,
a signal is raised by the hardware, it calls `raiseException`, or a C++ exception
leaves it. -/
inductive ThunkOutcome where
  | completed (result : Value) (s : State)
  | fault (signalNumber : Int) (signalInfo : SigInfo) (s : State)
  | raise (inException : Option ExceptionPtr) (s : State)
  | threw (s : State)
  deriving DecidableEq, Repr

/-- The `std::function<Value()>` handed to `catchRuntimeExceptions`: from the state
in which it is called to the way it ends. -/
abbrev Thunk := State → ThunkOutcome

/-- How a call of `catchRuntimeExceptions` ends. -/
inductive CallOutcome where
  -- `return result;`
  | returned (result : Value) (s : State)
  -- `initSignalStack` ran into its `throw;`
  | terminated
  -- a C++ exception of the thunk passes through the call
  | unwound (s : State)
  -- the signal was dispatched to something other than `signalHandler`
  | escaped (signalNumber : Int) (s : State)
  -- the jump went to the resumption point of another activation
  | jumped (env : Option Nat) (s : State)
  deriving DecidableEq, Repr

/-- The disposition the kernel consults for a signal; only the three monitored
signals are tracked. -/
def actionFor (abi : SignalABI) (signalNumber : Int) (s : State) : Option SigAction :=
  if signalNumber = abi.SIGSEGV then some s.actionSEGV
  else if signalNumber = abi.SIGBUS then some s.actionBUS
  else if signalNumber = abi.SIGFPE then some s.actionFPE
  else none

/-- The tail of `catchRuntimeExceptions` after its `if`/`else` chain: the signal
state is reset, the three saved dispositions are put back, `result` is returned. -/
def resetAndReturn (oldSignalActionSEGV oldSignalActionBUS oldSignalActionFPE : SigAction)
    (result : Value) (s : State) : CallOutcome :=
  let s1 := { s with exceptionCause := Cause.Unknown }
  let s2 := { s1 with exception := none }
  let s3 := { s2 with actionSEGV := oldSignalActionSEGV }
  let s4 := { s3 with actionBUS := oldSignalActionBUS }
  let s5 := { s4 with actionFPE := oldSignalActionFPE }
  CallOutcome.returned result s5

/-- The `siglongjmp(setjmpEnv,1)` / `longjmp(setjmpEnv,1)` seen from the activation
`frame`: when the buffer is the one this activation filled, `sigsetjmp` returns a
second time, non-zero, and the `else` branches run. -/
def jumpBack (frame : Nat)
    (oldSignalActionSEGV oldSignalActionBUS oldSignalActionFPE : SigAction)
    (s : State) : CallOutcome :=
  if s.setjmpEnv = some frame then
    match s.exception with
    | some e =>
      resetAndReturn oldSignalActionSEGV oldSignalActionBUS oldSignalActionFPE
        (Value.exception e) s
    | none =>
      let (e, s1) := newException s.exceptionCause s
      resetAndReturn oldSignalActionSEGV oldSignalActionBUS oldSignalActionFPE
        (Value.exception e) s1
  else CallOutcome.jumped s.setjmpEnv s

/-- The first pass through `catchRuntimeExceptions` up to the call of the thunk:
`initSignalStack`, `sigsetjmp` (returning 0) and the three `sigaction` calls that
install `signalHandler`. -/
def enterThunk (abi : SignalABI) (host : HostCalls) (frame : Nat) (s : State) :
    Option State :=
  match initSignalStack abi host s with
  | none => none
  | some s0 =>
    let s1 := { s0 with setjmpEnv := some frame }
    let signalAction : SigAction :=
      { sa_sigaction := SaHandler.signalHandler
        sa_mask := []
        sa_flags := abi.SA_SIGINFO ||| abi.SA_ONSTACK }
    let s2 := { s1 with actionSEGV := signalAction }
    let s3 := { s2 with actionBUS := signalAction }
    some { s3 with actionFPE := signalAction }

/-- The function `catchRuntimeExceptions`, as the activation `frame`. -/
def catchRuntimeExceptions (abi : SignalABI) (host : HostCalls) (frame : Nat)
    (thunk : Thunk) (s : State) : CallOutcome :=
  match initSignalStack abi host s with
  | none => CallOutcome.terminated
  | some s0 =>
    let s1 := { s0 with setjmpEnv := some frame }
    let signalAction : SigAction :=
      { sa_sigaction := SaHandler.signalHandler
        sa_mask := []
        sa_flags := abi.SA_SIGINFO ||| abi.SA_ONSTACK }
    let oldSignalActionSEGV := s1.actionSEGV
    let s2 := { s1 with actionSEGV := signalAction }
    let oldSignalActionBUS := s2.actionBUS
    let s3 := { s2 with actionBUS := signalAction }
    let oldSignalActionFPE := s3.actionFPE
    let s4 := { s3 with actionFPE := signalAction }
    match thunk s4 with
    | ThunkOutcome.completed result s5 =>
      resetAndReturn oldSignalActionSEGV oldSignalActionBUS oldSignalActionFPE result s5
    | ThunkOutcome.fault signalNumber signalInfo s5 =>
      match actionFor abi signalNumber s5 with
      | some action =>
        if action.sa_sigaction = SaHandler.signalHandler then
          jumpBack frame oldSignalActionSEGV oldSignalActionBUS oldSignalActionFPE
            (signalHandler abi signalNumber signalInfo s5)
        else CallOutcome.escaped signalNumber s5
      | none => CallOutcome.escaped signalNumber s5
    | ThunkOutcome.raise inException s5 =>
      jumpBack frame oldSignalActionSEGV oldSignalActionBUS oldSignalActionFPE
        (raiseException inException s5)
    | ThunkOutcome.threw s5 => CallOutcome.unwound s5

/-- The run of the thunk inside a call of `catchRuntimeExceptions`: `none` when the
call never reaches the thunk. -/
def thunkRun (abi : SignalABI) (host : HostCalls) (frame : Nat) (thunk : Thunk)
    (s : State) : Option ThunkOutcome :=
  (enterThunk abi host frame s).map thunk

/-- The dispositions of the invalid-memory-access, bus-error and arithmetic
signals. -/
def handlers (s : State) : SigAction × SigAction × SigAction :=
  (s.actionSEGV, s.actionBUS, s.actionFPE)

end RuntimePlatform

namespace RuntimePlatform

open Runtime

/-- What `catchRuntimeExceptions` does with the way the thunk ended, given the three
dispositions it saved before calling the thunk. -/
def afterThunk (abi : SignalABI) (frame : Nat) (oldSEGV oldBUS oldFPE : SigAction) :
    ThunkOutcome → CallOutcome
  | ThunkOutcome.completed result t => resetAndReturn oldSEGV oldBUS oldFPE result t
  | ThunkOutcome.fault signalNumber signalInfo t =>
    match actionFor abi signalNumber t with
    | some action =>
      if action.sa_sigaction = SaHandler.signalHandler then
        jumpBack frame oldSEGV oldBUS oldFPE (signalHandler abi signalNumber signalInfo t)
      else CallOutcome.escaped signalNumber t
    | none => CallOutcome.escaped signalNumber t
  | ThunkOutcome.raise inException t =>
    jumpBack frame oldSEGV oldBUS oldFPE (raiseException inException t)
  | ThunkOutcome.threw t => CallOutcome.unwound t

/-- The spec's window, read inclusively: the two addresses are at most 16 KiB
(16384 bytes) apart. -/
def within16KiB (stackLimit addr : Nat) : Prop :=
  addr ≤ stackLimit + 16384 ∧ stackLimit ≤ addr + 16384

instance (stackLimit addr : Nat) : Decidable (within16KiB stackLimit addr) := by
  unfold within16KiB
  exact inferInstance

/-- The spec's window, read strictly: the two addresses are less than 16 KiB
(16384 bytes) apart. -/
def lessThan16KiBApart (stackLimit addr : Nat) : Prop :=
  addr < stackLimit + 16384 ∧ stackLimit < addr + 16384

instance (stackLimit addr : Nat) : Decidable (lessThan16KiBApart stackLimit addr) := by
  unfold lessThan16KiBApart
  exact inferInstance

/-- The disposition of a signal nobody has set: the default action. -/
def defaultAction : SigAction :=
  { sa_sigaction := SaHandler.SIG_DFL, sa_mask := [], sa_flags := 0 }

/-- A thread on which the bridge has not run yet: the thread-local variables hold
their initialisers, the three signals have their default dispositions, no exception
has been allocated. -/
def freshThread : State :=
  { setjmpEnv := none
    exceptionCause := Cause.Unknown
    exception := none
    signalStack := none
    stackMinAddr := 0
    stackSize := 0
    actionSEGV := defaultAction
    actionBUS := defaultAction
    actionFPE := defaultAction
    altStack := none
    heap := [] }

/-- A host in which `sigaltstack` succeeds, the stack limit is 8 MiB and the local
of `initSignalStack` lies at `0x7ffd00001000`. -/
def exampleHost : HostCalls :=
  { newAddr := 0x555500000000
    sigaltstackResult := 0
    rlim_cur := 8388608
    signalStackInfoAddr := 0x7ffd00001000 }

/-- The disposition `catchRuntimeExceptions` installs on Linux. -/
def linuxSignalAction : SigAction :=
  { sa_sigaction := SaHandler.signalHandler, sa_mask := [], sa_flags := 0x08000004 }

/-- The state in which the thunk starts when activation 1 of
`catchRuntimeExceptions` is called on `freshThread` with `exampleHost`. -/
def exampleEntered : State :=
  { setjmpEnv := some 1
    exceptionCause := Cause.Unknown
    exception := none
    signalStack := some 0x555500000000
    stackMinAddr := 0x7ffcff801000
    stackSize := 8388608
    actionSEGV := linuxSignalAction
    actionBUS := linuxSignalAction
    actionFPE := linuxSignalAction
    altStack := some { ss_sp := 0x555500000000, ss_flags := 0, ss_size := 8192 }
    heap := [] }

end RuntimePlatform

namespace RuntimePlatform

open Runtime

/-- Modelled host function `backtrace(buffer,size)` of `<execinfo.h>`: of the return
addresses `unwound` that the unwinder finds, innermost first, it stores the first
`size` in the buffer and returns how many it stored. -/
def backtrace (unwound : List Nat) (size : Nat) : List Nat × Int :=
  (unwound.take size, ((unwound.take size).length : Int))

/-- The function `captureExecutionContext`.  `linux` says whether `__linux__` is
defined; the loop pushes one frame `{callstackAddresses[index],0}` for every
`index` below `numCallStackEntries`. -/
def captureExecutionContext (linux : Bool) (unwound : List Nat) : ExecutionContext :=
  if linux then
    let maxCallStackSize := 512
    let (callstackAddresses, numCallStackEntries) := backtrace unwound maxCallStackSize
    (List.range numCallStackEntries.toNat).foldl
      (fun result index =>
        { stackFrames := result.stackFrames ++
            [{ ip := callstackAddresses.getD index 0, ipOffset := 0 }] })
      (ExecutionContext.mk [])
  else
    ExecutionContext.mk []

/-- An outer thunk that calls `catchRuntimeExceptions` as activation 2 on a thunk
returning the payload 0 and, once that call has returned, raises the exception at
heap index 7. -/
def nestedThenRaise : Thunk := fun st =>
  match catchRuntimeExceptions linuxABI exampleHost 2
      (fun u => ThunkOutcome.completed (Value.payload 0) u) st with
  | CallOutcome.returned _ st1 => ThunkOutcome.raise (some 7) st1
  | _ => ThunkOutcome.threw st

end RuntimePlatform

/-! ## `SExpressions.h`: nodes, the sibling iterator and the node output stream

Nodes live in one heap; a `Node*` that is not null is the index of the node in the
heap, `new(arena) Node()` places the node at the next free index.  A function that
dereferences a pointer returns `none` when the pointer does not point to a node, and
the `while` loop of `append` runs on fuel: `none` when the fuel does not reach the
end of the sibling chain. -/

namespace SExp

/-- The enumeration `NodeType`. -/
inductive NodeType where
  | Symbol
  | String
  | UnindexedSymbol
  | Name
  | SignedInt
  | UnsignedInt
  | Float
  | Error
  | Tree
  | Attribute
  deriving DecidableEq, Repr

/-- The type `Core::TextFileLocus`, declared in a header that is not among the
sources at hand: a position in a text file. -/
structure TextFileLocus where
  newlines : Nat
  tabs : Nat
  characters : Nat
  deriving DecidableEq, Repr

/-- The default-constructed `Core::TextFileLocus()`. -/
def TextFileLocus.origin : TextFileLocus :=
  { newlines := 0, tabs := 0, characters := 0 }

/-- A `Node*` that is not null. -/
abbrev NodeId := Nat

/-- The first anonymous union of `Node`, as the member that was written last. -/
inductive NodeValue where
  | error (string : Nat)
  | symbol (index : Nat)
  | string (chars : Nat)
  | i64 (value : Int)
  | u64 (value : Nat)
  | f64 (bits : Nat)
  | children (first : Option NodeId)
  deriving DecidableEq, Repr

/-- The structure `Node`. -/
structure Node where
  type : NodeType
  value : NodeValue
  stringLength : Nat
  nextSibling : Option NodeId
  startLocus : TextFileLocus
  endLocus : TextFileLocus
  deriving DecidableEq, Repr

/-- The constructor `Node(inStartLocus,inType)`. -/
def Node.init (inStartLocus : TextFileLocus) (inType : NodeType) : Node :=
  { type := inType
    value := NodeValue.children none
    stringLength := 0
    nextSibling := none
    startLocus := inStartLocus
    endLocus := inStartLocus }

/-- The memory in which nodes live. -/
abbrev Heap := List Node

/-- Dereference of a node pointer. -/
def Heap.read (h : Heap) (n : NodeId) : Option Node := h[n]?

/-- Store through a node pointer. -/
def Heap.write (h : Heap) (n : NodeId) (node : Node) : Heap := h.set n node

/-- The expression `new(arena) Node(...)`: the node is placed at the next free
index. -/
def Heap.alloc (h : Heap) (node : Node) : NodeId × Heap := (h.length, h ++ [node])

/-- The structure `NodeIt`. -/
structure NodeIt where
  node : Option NodeId
  previousLocus : TextFileLocus
  deriving DecidableEq, Repr

/-- The constructor `NodeIt()`. -/
def NodeIt.null : NodeIt := { node := none, previousLocus := TextFileLocus.origin }

/-- The constructor `NodeIt(inNode)` with the default `inPreviousLocus`. -/
def NodeIt.ofNode (inNode : Option NodeId) : NodeIt :=
  { node := inNode, previousLocus := TextFileLocus.origin }

/-- The pre-increment `NodeIt::operator++()`. -/
def NodeIt.preIncrement (h : Heap) (it : NodeIt) : Option NodeIt :=
  match it.node with
  | some n =>
    match h.read n with
    | some node => some { node := node.nextSibling, previousLocus := node.endLocus }
    | none => none
  | none => some it

/-- The post-increment `NodeIt::operator++(int)`: the returned copy, then the
iterator after the increment. -/
def NodeIt.postIncrement (h : Heap) (it : NodeIt) : Option (NodeIt × NodeIt) :=
  let copy := it
  match NodeIt.preIncrement h it with
  | some it1 => some (copy, it1)
  | none => none

/-- The member `NodeIt::getChildIt`; `none` when the `assert` fails. -/
def NodeIt.getChildIt (h : Heap) (it : NodeIt) : Option NodeIt :=
  match it.node with
  | some n =>
    match h.read n with
    | some node =>
      if node.type = NodeType.Tree ∨ node.type = NodeType.Attribute then
        match node.value with
        | NodeValue.children first => some { node := first, previousLocus := node.startLocus }
        | _ => none
      else none
    | none => none
  | none => none

/-- The conversion `NodeIt::operator bool`. -/
def NodeIt.toBool (it : NodeIt) : Bool := it.node.isSome

/-- The pre-increment applied `count` times. -/
def NodeIt.advance (h : Heap) : Nat → NodeIt → Option NodeIt
  | 0, it => some it
  | count + 1, it =>
    match NodeIt.preIncrement h it with
    | some it1 => NodeIt.advance h count it1
    | none => none

/-- What a `Node**` can point to: the `rootNode` of the stream, the `children` of a
node, the `nextSibling` of a node. -/
inductive NodeLink where
  | rootNode
  | children (n : NodeId)
  | nextSibling (n : NodeId)
  deriving DecidableEq, Repr

/-- The data members `rootNode` and `nextNodeLink` of `NodeOutputStream`; the arena
is the heap. -/
structure NodeOutputStream where
  rootNode : Option NodeId
  nextNodeLink : NodeLink
  deriving DecidableEq, Repr

/-- The constructor `NodeOutputStream(inArena)`. -/
def NodeOutputStream.init : NodeOutputStream :=
  { rootNode := none, nextNodeLink := NodeLink.rootNode }

/-- The member `NodeOutputStream::getRoot`. -/
def NodeOutputStream.getRoot (st : NodeOutputStream) : Option NodeId := st.rootNode

/-- The assignment `*link = node`. -/
def writeLink (h : Heap) (st : NodeOutputStream) (link : NodeLink) (node : Option NodeId) :
    Option (Heap × NodeOutputStream) :=
  match link with
  | NodeLink.rootNode => some (h, { st with rootNode := node })
  | NodeLink.children n =>
    match h.read n with
    | some target => some (h.write n { target with value := NodeValue.children node }, st)
    | none => none
  | NodeLink.nextSibling n =>
    match h.read n with
    | some target => some (h.write n { target with nextSibling := node }, st)
    | none => none

/-- The loop `while(node->nextSibling) { node = node->nextSibling; }` of `append`. -/
def lastSibling (h : Heap) : Nat → NodeId → Option NodeId
  | 0, _ => none
  | fuel + 1, node =>
    match h.read node with
    | some target =>
      match target.nextSibling with
      | some next => lastSibling h fuel next
      | none => some node
    | none => none

/-- The member `NodeOutputStream::append`. -/
def NodeOutputStream.append (fuel : Nat) (node : Option NodeId) (h : Heap)
    (st : NodeOutputStream) : Option (Heap × NodeOutputStream) :=
  match node with
  | some n =>
    match writeLink h st st.nextNodeLink (some n) with
    | some (h1, st1) =>
      match lastSibling h1 fuel n with
      | some last => some (h1, { st1 with nextNodeLink := NodeLink.nextSibling last })
      | none => none
    | none => none
  | none => some (h, st)

/-- The operator `operator<<(Node* node)`. -/
def NodeOutputStream.shiftNode (fuel : Nat) (node : Option NodeId) (h : Heap)
    (st : NodeOutputStream) : Option (Heap × NodeOutputStream) :=
  NodeOutputStream.append fuel node h st

/-- The operator `operator<<(const NodeOutputStream& substream)`. -/
def NodeOutputStream.shiftSubstream (fuel : Nat) (substream : NodeOutputStream) (h : Heap)
    (st : NodeOutputStream) : Option (Heap × NodeOutputStream) :=
  NodeOutputStream.append fuel substream.getRoot h st

/-- The conversion of an integer to `int64`. -/
def toInt64 (x : Int) : Int := (x + 2 ^ 63) % 2 ^ 64 - 2 ^ 63

/-- The conversion of an integer to `uint64`. -/
def toUInt64 (x : Int) : Nat := (x % 2 ^ 64).toNat

/-- The member template `NodeOutputStream::appendInt`, for an argument whose value is
`i`. -/
def NodeOutputStream.appendInt (fuel : Nat) (i : Int) (h : Heap) (st : NodeOutputStream) :
    Option (Heap × NodeOutputStream) :=
  let (intNode, h1) := h.alloc (Node.init TextFileLocus.origin NodeType.Tree)
  match h1.read intNode with
  | some target =>
    let h2 := h1.write intNode
      { target with type := if i < 0 then NodeType.SignedInt else NodeType.UnsignedInt }
    match h2.read intNode with
    | some target2 =>
      let h3 := h2.write intNode
        { target2 with value :=
            NodeValue.u64 (if i < 0 then toUInt64 (toInt64 (-(toInt64 i))) else toUInt64 i) }
      NodeOutputStream.append fuel (some intNode) h3 st
    | none => none
  | none => none

/-- The operator `operator<<(bool b)`. -/
def NodeOutputStream.shiftBool (fuel : Nat) (b : Bool) (h : Heap) (st : NodeOutputStream) :
    Option (Heap × NodeOutputStream) :=
  NodeOutputStream.appendInt fuel (if b then 1 else 0) h st

/-- The operator `operator<<(uint8 i)`. -/
def NodeOutputStream.shiftUInt8 (fuel : Nat) (i : Nat) (h : Heap) (st : NodeOutputStream) :
    Option (Heap × NodeOutputStream) :=
  NodeOutputStream.appendInt fuel ((i % 2 ^ 8 : Nat) : Int) h st

/-- The operator `operator<<(uint16 i)`. -/
def NodeOutputStream.shiftUInt16 (fuel : Nat) (i : Nat) (h : Heap) (st : NodeOutputStream) :
    Option (Heap × NodeOutputStream) :=
  NodeOutputStream.appendInt fuel ((i % 2 ^ 16 : Nat) : Int) h st

/-- The operator `operator<<(uint32 i)`. -/
def NodeOutputStream.shiftUInt32 (fuel : Nat) (i : Nat) (h : Heap) (st : NodeOutputStream) :
    Option (Heap × NodeOutputStream) :=
  NodeOutputStream.appendInt fuel ((i % 2 ^ 32 : Nat) : Int) h st

/-- The operator `operator<<(uint64 i)`. -/
def NodeOutputStream.shiftUInt64 (fuel : Nat) (i : Nat) (h : Heap) (st : NodeOutputStream) :
    Option (Heap × NodeOutputStream) :=
  NodeOutputStream.appendInt fuel ((i % 2 ^ 64 : Nat) : Int) h st

/-- The operator `operator<<(intptr i)`, with a 64-bit `intptr`. -/
def NodeOutputStream.shiftIntPtr (fuel : Nat) (i : Int) (h : Heap) (st : NodeOutputStream) :
    Option (Heap × NodeOutputStream) :=
  NodeOutputStream.appendInt fuel (toInt64 i) h st

/-- The `nextSibling` pointer of the node a pointer points to. -/
def nextOf (h : Heap) (n : NodeId) : Option (Option NodeId) :=
  (h.read n).map Node.nextSibling

/-- The sibling chain that starts at `start` consists of the nodes `ns`, in order,
and ends in a null `nextSibling`. -/
def IsChain (h : Heap) : Option NodeId → List NodeId → Prop
  | start, [] => start = none
  | start, n :: rest =>
    start = some n ∧
      match nextOf h n with
      | some next => IsChain h next rest
      | none => False

/-- The pointer stored in what a `Node**` points to. -/
def readLink (h : Heap) (st : NodeOutputStream) : NodeLink → Option (Option NodeId)
  | NodeLink.rootNode => some st.rootNode
  | NodeLink.children n =>
    match h.read n with
    | some target =>
      match target.value with
      | NodeValue.children first => some first
      | _ => none
    | none => none
  | NodeLink.nextSibling n => nextOf h n

/-- The link through which the next node is appended after the nodes `ns` have been
appended through `origin`: `origin` itself when there are none, the `nextSibling` of
the last of them otherwise. -/
def linkAfter (origin : NodeLink) (ns : List NodeId) : NodeLink :=
  match ns.getLast? with
  | some last => NodeLink.nextSibling last
  | none => origin

/-- The stream appends through `origin` and the nodes appended so far are `ns`: the
chain stored in `origin` is `ns`, and `nextNodeLink` is the link after them. -/
def AppendsAt (h : Heap) (st : NodeOutputStream) (origin : NodeLink) (ns : List NodeId) :
    Prop :=
  (∃ start, readLink h st origin = some start ∧ IsChain h start ns)
    ∧ st.nextNodeLink = linkAfter origin ns

end SExp

namespace SExp

/-- The outcome the claims describe for an integer `operator<<`: it succeeds, the
node it allocates has the type `nodeType` and holds `magnitude` in `u64`, and the
stream has appended that node. -/
def AppendsIntNode (result : Option (Heap × NodeOutputStream)) (h : Heap)
    (st : NodeOutputStream) (nodeType : NodeType) (magnitude : Nat) : Prop :=
  ∃ h1 st1 node,
    result = some (h1, st1)
    ∧ h1.read h.length = some node
    ∧ node.type = nodeType
    ∧ node.value = NodeValue.u64 magnitude
    ∧ node.nextSibling = none
    ∧ readLink h1 st1 st.nextNodeLink = some (some h.length)
    ∧ st1.nextNodeLink = NodeLink.nextSibling h.length

/-- The link points into the stream itself or into a node of the heap that holds
what the link is a member of. -/
def LinkValid (h : Heap) : NodeLink → Prop
  | NodeLink.rootNode => True
  | NodeLink.children n => ∃ target first, h.read n = some target
      ∧ target.value = NodeValue.children first
  | NodeLink.nextSibling n => ∃ target, h.read n = some target

end SExp

namespace SExp

/-- A heap of three nodes: node 0 without sibling, node 1 followed by node 2. -/
def exampleHeap : Heap :=
  [Node.init TextFileLocus.origin NodeType.Tree,
   { Node.init TextFileLocus.origin NodeType.Tree with nextSibling := some 2 },
   Node.init TextFileLocus.origin NodeType.Tree]

/-- The stream made by the constructor after `operator<<(Node*)` on node 0 of
`exampleHeap`. -/
def exampleStream : NodeOutputStream :=
  { rootNode := some 0, nextNodeLink := NodeLink.nextSibling 0 }

end SExp

namespace SExp

end SExp

/-! ## Theorems: the opcode catalog -/

namespace AST

set_option maxRecDepth 100000 in
/-- C1: in each of the five classes every declared opcode has a non-empty name and a
code that fits `uint8`, `getOpName` returns that name for that code, and two declared
opcodes that share a name or share a code are the same opcode; so `getOpName` is
total and injective over the declared codes of the class. -/
theorem getOpName_total_injective (c : TypeClass) :
    (∀ entry ∈ classOps c,
        entry.1 ≠ "" ∧ entry.2 < 256 ∧ getOpName c entry.2 = some entry.1) ∧
    (∀ a ∈ classOps c, ∀ b ∈ classOps c, a.1 = b.1 ∨ a.2 = b.2 → a = b) ∧
    (∀ a ∈ classOps c, ∀ b ∈ classOps c,
        getOpName c a.2 = getOpName c b.2 → a = b) := by
  cases c <;> decide

/-- C2, as stated, fails: the Float class contains none of the comparison opcodes;
`eq`, the first of them, is not an opcode of `FloatOp`. -/
theorem float_lacks_comparison_ops :
    ¬ (∀ op ∈ ENUM_AST_COMPARISON_OPS, op ∈ opNames TypeClass.Int ∧ op ∈ opNames TypeClass.Float) ∧
    "eq" ∈ ENUM_AST_COMPARISON_OPS ∧ "eq" ∉ opNames TypeClass.Float := by
  decide

set_option maxRecDepth 100000 in
/-- C2, amended: the Int class contains every comparison opcode together with its own
unary, binary and cast opcodes and `lit`; the Float class contains its own unary,
binary and cast opcodes and `lit`, and not one of the comparison opcodes. -/
theorem comparison_ops_in_int_only :
    (∀ op ∈ ENUM_AST_COMPARISON_OPS, op ∈ opNames TypeClass.Int) ∧
    (∀ op ∈ ENUM_AST_UNARY_OPS_Int ++ ENUM_AST_BINARY_OPS_Int ++ ENUM_AST_CAST_OPS_Int ++ ["lit"],
        op ∈ opNames TypeClass.Int) ∧
    (∀ op ∈ ENUM_AST_UNARY_OPS_Float ++ ENUM_AST_BINARY_OPS_Float ++ ENUM_AST_CAST_OPS_Float
          ++ ["lit"],
        op ∈ opNames TypeClass.Float) ∧
    (∀ op ∈ ENUM_AST_COMPARISON_OPS, op ∉ opNames TypeClass.Float) ∧
    ENUM_AST_COMPARISON_OPS =
      ["eq", "ne", "lts", "ltu", "lt", "les", "leu", "le", "gts", "gtu", "gt", "ges", "geu", "ge"] := by
  decide

set_option maxRecDepth 100000 in
/-- C3: the Int class contains every Any opcode and every opcode of Int's unary,
binary and cast lists, and no opcode that is in Float's unary, binary or cast lists
without being in Int's (among them `sqrt`, `ceil`, `div`, `min`, `promote`); the
Float class contains every Any opcode and every opcode of Float's unary, binary and
cast lists, and no opcode that is in Int's lists without being in Float's (among
them `divs`, `clz`, `shl`, `wrap`). -/
theorem catalog_closure :
    (∀ op ∈ ENUM_AST_OPS_Any ++ ENUM_AST_UNARY_OPS_Int ++ ENUM_AST_BINARY_OPS_Int
          ++ ENUM_AST_CAST_OPS_Int,
        op ∈ opNames TypeClass.Int) ∧
    (∀ op ∈ ENUM_AST_UNARY_OPS_Float ++ ENUM_AST_BINARY_OPS_Float ++ ENUM_AST_CAST_OPS_Float,
        op ∉ ENUM_AST_UNARY_OPS_Int ++ ENUM_AST_BINARY_OPS_Int ++ ENUM_AST_CAST_OPS_Int →
        op ∉ opNames TypeClass.Int) ∧
    (∀ op ∈ ["sqrt", "ceil", "div", "min", "promote"],
        op ∈ ENUM_AST_UNARY_OPS_Float ++ ENUM_AST_BINARY_OPS_Float ++ ENUM_AST_CAST_OPS_Float ∧
        op ∉ opNames TypeClass.Int) ∧
    (∀ op ∈ ENUM_AST_OPS_Any ++ ENUM_AST_UNARY_OPS_Float ++ ENUM_AST_BINARY_OPS_Float
          ++ ENUM_AST_CAST_OPS_Float,
        op ∈ opNames TypeClass.Float) ∧
    (∀ op ∈ ENUM_AST_UNARY_OPS_Int ++ ENUM_AST_BINARY_OPS_Int ++ ENUM_AST_CAST_OPS_Int,
        op ∉ ENUM_AST_UNARY_OPS_Float ++ ENUM_AST_BINARY_OPS_Float ++ ENUM_AST_CAST_OPS_Float →
        op ∉ opNames TypeClass.Float) ∧
    (∀ op ∈ ["divs", "clz", "shl", "wrap"],
        op ∈ ENUM_AST_UNARY_OPS_Int ++ ENUM_AST_BINARY_OPS_Int ++ ENUM_AST_CAST_OPS_Int ∧
        op ∉ opNames TypeClass.Float) := by
  decide

set_option maxRecDepth 100000 in
/-- C4: the None class has exactly the seventeen Any opcodes, with the same codes;
the Void class has exactly the Any opcodes followed by `discardResult`, `nop` and
`branchIf`; `loadZExt`, `loadSExt` and `hasFeature` are opcodes of the Int class and
not of the Float class. -/
theorem class_layering :
    opNames TypeClass.Any =
      ["error", "getLocal", "setLocal", "load", "store", "callDirect", "callImport",
       "callIndirect", "loop", "ifElse", "select", "label", "sequence", "branch",
       "branchTable", "ret", "unreachable"] ∧
    (opNames TypeClass.Any).length = 17 ∧
    classOps TypeClass.None = classOps TypeClass.Any ∧
    opNames TypeClass.Void = opNames TypeClass.Any ++ ["discardResult", "nop", "branchIf"] ∧
    (∀ op, op ∈ opNames TypeClass.None ↔ op ∈ opNames TypeClass.Any) ∧
    (∀ op, op ∈ opNames TypeClass.Void ↔
        op ∈ opNames TypeClass.Any ∨ op ∈ ["discardResult", "nop", "branchIf"]) ∧
    (∀ op ∈ ["discardResult", "nop", "branchIf"], op ∉ opNames TypeClass.Any) ∧
    (∀ op ∈ ["loadZExt", "loadSExt", "hasFeature"],
        op ∈ opNames TypeClass.Int ∧ op ∉ opNames TypeClass.Float) := by
  refine ⟨by decide, by decide, by decide, by decide, ?_, ?_, by decide, by decide⟩
  · intro op
    exact Iff.rfl
  · intro op
    have h : opNames TypeClass.Void
        = opNames TypeClass.Any ++ ["discardResult", "nop", "branchIf"] := by decide
    rw [h, List.mem_append]

end AST

/-! ## Theorems: the fault-to-exception bridge -/

namespace RuntimePlatform

open Runtime

theorem initSignalStack_handlers {abi : SignalABI} {host : HostCalls} {s s0 : State}
    (h : initSignalStack abi host s = some s0) : handlers s0 = handlers s := by
  unfold initSignalStack at h
  split at h
  · cases h; rfl
  · split at h
    · cases h
    · cases h; rfl

theorem catch_eq_afterThunk {abi : SignalABI} {host : HostCalls} {frame : Nat}
    {thunk : Thunk} {s : State} {o : ThunkOutcome}
    (h : thunkRun abi host frame thunk s = some o) :
    catchRuntimeExceptions abi host frame thunk s
      = afterThunk abi frame s.actionSEGV s.actionBUS s.actionFPE o := by
  unfold thunkRun enterThunk at h
  unfold catchRuntimeExceptions
  cases hi : initSignalStack abi host s with
  | none => rw [hi] at h; cases h
  | some s0 =>
    rw [hi] at h
    have hh := initSignalStack_handlers hi
    simp only [handlers, Prod.mk.injEq] at hh
    obtain ⟨h1, h2, h3⟩ := hh
    simp only [Option.map_some', Option.some.injEq] at h
    simp only [h, h1, h2, h3]
    cases o <;> rfl

theorem resetAndReturn_handlers (a b c : SigAction) (r : Value) (t : State) :
    ∃ s', resetAndReturn a b c r t = CallOutcome.returned r s' ∧ handlers s' = (a, b, c)
      ∧ s'.heap = t.heap ∧ s'.exceptionCause = Cause.Unknown ∧ s'.exception = none :=
  ⟨_, rfl, rfl, rfl, rfl, rfl⟩

theorem catch_completed {abi : SignalABI} {host : HostCalls} {frame : Nat}
    {thunk : Thunk} {s t : State} {v : Value}
    (h : thunkRun abi host frame thunk s = some (ThunkOutcome.completed v t)) :
    ∃ s', catchRuntimeExceptions abi host frame thunk s = CallOutcome.returned v s'
      ∧ handlers s' = handlers s := by
  rw [catch_eq_afterThunk h]
  obtain ⟨s', h1, h2, -⟩ := resetAndReturn_handlers s.actionSEGV s.actionBUS s.actionFPE v t
  exact ⟨s', h1, h2⟩

theorem jumpBack_returns {frame : Nat} (a b c : SigAction) {t : State}
    (henv : t.setjmpEnv = some frame) :
    ∃ r s', jumpBack frame a b c t = CallOutcome.returned r s' ∧ handlers s' = (a, b, c) := by
  unfold jumpBack
  rw [if_pos henv]
  cases t.exception with
  | some e => exact ⟨_, _, rfl, rfl⟩
  | none => exact ⟨_, _, rfl, rfl⟩

theorem jumpBack_of_none (frame : Nat) (a b c : SigAction) {t : State}
    (henv : t.setjmpEnv = some frame) (hpending : t.exception = none) :
    jumpBack frame a b c t
      = resetAndReturn a b c (Value.exception t.heap.length)
          (newException t.exceptionCause t).2 := by
  unfold jumpBack
  rw [if_pos henv, hpending]
  rfl

theorem jumpBack_of_some (frame : Nat) (a b c : SigAction) {t : State} {e : ExceptionPtr}
    (henv : t.setjmpEnv = some frame) (hpending : t.exception = some e) :
    jumpBack frame a b c t = resetAndReturn a b c (Value.exception e) t := by
  unfold jumpBack
  rw [if_pos henv, hpending]

theorem signalHandler_frame (abi : SignalABI) (signalNumber : Int) (signalInfo : SigInfo)
    (t : State) :
    (signalHandler abi signalNumber signalInfo t).setjmpEnv = t.setjmpEnv
      ∧ (signalHandler abi signalNumber signalInfo t).exception = t.exception
      ∧ (signalHandler abi signalNumber signalInfo t).heap = t.heap := by
  unfold signalHandler
  split
  · split <;> exact ⟨rfl, rfl, rfl⟩
  · split <;> exact ⟨rfl, rfl, rfl⟩

/-- C5: when the thunk of a call completes with the value `v1`, the call returns
`v1` and the dispositions of the three monitored signals are those of before the
call, whatever they were and whatever the thunk did to them; a second such call,
started in the state the first one left, returns its own thunk's value and leaves
the dispositions as they were before the first call. -/
theorem catchRuntimeExceptions_completed (abi : SignalABI) (host1 : HostCalls)
    (frame1 : Nat) (thunk1 : Thunk) (s t1 : State) (v1 : Value)
    (h1 : thunkRun abi host1 frame1 thunk1 s = some (ThunkOutcome.completed v1 t1)) :
    ∃ s1, catchRuntimeExceptions abi host1 frame1 thunk1 s = CallOutcome.returned v1 s1
      ∧ handlers s1 = handlers s
      ∧ ∀ (host2 : HostCalls) (frame2 : Nat) (thunk2 : Thunk) (t2 : State) (v2 : Value),
          thunkRun abi host2 frame2 thunk2 s1 = some (ThunkOutcome.completed v2 t2) →
          ∃ s2, catchRuntimeExceptions abi host2 frame2 thunk2 s1
                  = CallOutcome.returned v2 s2
            ∧ handlers s2 = handlers s := by
  obtain ⟨s1, hc1, hh1⟩ := catch_completed h1
  refine ⟨s1, hc1, hh1, ?_⟩
  intro host2 frame2 thunk2 t2 v2 h2
  obtain ⟨s2, hc2, hh2⟩ := catch_completed h2
  exact ⟨s2, hc2, hh2.trans hh1⟩

theorem inStackWindow_outside {m a : Nat} (hm : m < 2 ^ 64)
    (hout : a + 16384 ≤ m ∨ m + 16384 ≤ a) : inStackWindow m a = false := by
  have h1 : ¬ (a > ptrSub m 16384 ∧ a < ptrAdd m 16384) := by
    unfold ptrSub ptrAdd
    omega
  simp only [inStackWindow, Bool.and_eq_false_imp, decide_eq_true_eq, decide_eq_false_iff_not]
  intro h2 h3
  exact h1 ⟨h2, h3⟩

/-- C6: when the thunk of a call ends in a signal that is dispatched to
`signalHandler` while the jump buffer is the one of this call and no explicit
exception is pending, the call returns a pointer to a newly allocated exception
whose cause is the one `signalHandler` derived from the signal; that cause is
`IntegerDivideByZeroOrIntegerOverflow` for `SIGFPE` with `FPE_INTDIV`, and
`AccessViolation` for `SIGSEGV` or `SIGBUS` at every address that lies 16384 bytes
or more below or above the stack-limit address. -/
theorem catchRuntimeExceptions_fault (abi : SignalABI) (host : HostCalls) (frame : Nat)
    (thunk : Thunk) (s t : State) (signalNumber : Int) (signalInfo : SigInfo)
    (hrun : thunkRun abi host frame thunk s
              = some (ThunkOutcome.fault signalNumber signalInfo t))
    (hdispatch : (actionFor abi signalNumber t).map SigAction.sa_sigaction
              = some SaHandler.signalHandler)
    (henv : t.setjmpEnv = some frame)
    (hpending : t.exception = none) :
    ∃ s', catchRuntimeExceptions abi host frame thunk s
            = CallOutcome.returned (Value.exception t.heap.length) s'
      ∧ s'.heap = t.heap ++
          [{ cause := (signalHandler abi signalNumber signalInfo t).exceptionCause }]
      ∧ (s'.heap.get? t.heap.length).map Exception.cause
          = some (signalHandler abi signalNumber signalInfo t).exceptionCause
      ∧ (signalNumber = abi.SIGFPE → signalInfo.si_code = abi.FPE_INTDIV →
          (signalHandler abi signalNumber signalInfo t).exceptionCause
              = Cause.IntegerDivideByZeroOrIntegerOverflow
            ∧ (s'.heap.get? t.heap.length).map Exception.cause
              = some Cause.IntegerDivideByZeroOrIntegerOverflow)
      ∧ (signalNumber = abi.SIGSEGV ∨ signalNumber = abi.SIGBUS →
          t.stackMinAddr < 2 ^ 64 →
          signalInfo.si_addr + 16384 ≤ t.stackMinAddr
            ∨ t.stackMinAddr + 16384 ≤ signalInfo.si_addr →
          (signalHandler abi signalNumber signalInfo t).exceptionCause
              = Cause.AccessViolation
            ∧ (s'.heap.get? t.heap.length).map Exception.cause
              = some Cause.AccessViolation) := by
  rw [catch_eq_afterThunk hrun]
  obtain ⟨hf, he, hheap⟩ := signalHandler_frame abi signalNumber signalInfo t
  have hact : ∃ action, actionFor abi signalNumber t = some action
      ∧ action.sa_sigaction = SaHandler.signalHandler := by
    cases ha : actionFor abi signalNumber t with
    | none => rw [ha] at hdispatch; cases hdispatch
    | some action =>
      rw [ha] at hdispatch
      simp only [Option.map_some', Option.some.injEq] at hdispatch
      exact ⟨action, rfl, hdispatch⟩
  obtain ⟨action, ha, hsig⟩ := hact
  have hjump := jumpBack_of_none frame s.actionSEGV s.actionBUS s.actionFPE
    (t := signalHandler abi signalNumber signalInfo t) (hf.trans henv) (he.trans hpending)
  obtain ⟨s', hret, -, hheap', -⟩ := resetAndReturn_handlers s.actionSEGV s.actionBUS
    s.actionFPE (Value.exception (signalHandler abi signalNumber signalInfo t).heap.length)
    (newException (signalHandler abi signalNumber signalInfo t).exceptionCause
      (signalHandler abi signalNumber signalInfo t)).2
  rw [hheap] at hret
  have hheap2 : s'.heap = t.heap ++
      [{ cause := (signalHandler abi signalNumber signalInfo t).exceptionCause }] := by
    rw [hheap']; simp only [newException, hheap]
  have hcause : (s'.heap.get? t.heap.length).map Exception.cause
      = some (signalHandler abi signalNumber signalInfo t).exceptionCause := by
    rw [hheap2]
    simp
  refine ⟨s', ?_, hheap2, hcause, ?_, ?_⟩
  · simp only [afterThunk, ha, hsig, if_true]
    rw [hjump, hheap]
    exact hret
  · intro h1 h2
    have hc : (signalHandler abi signalNumber signalInfo t).exceptionCause
        = Cause.IntegerDivideByZeroOrIntegerOverflow := by
      simp [signalHandler, h1, h2]
    exact ⟨hc, by rw [hcause, hc]⟩
  · intro h1 hm hout
    have hne : signalNumber ≠ abi.SIGFPE := by
      rcases h1 with h1 | h1
      · rw [h1]; exact fun h => abi.fpe_ne_segv h.symm
      · rw [h1]; exact fun h => abi.fpe_ne_bus h.symm
    have hw := inStackWindow_outside hm hout
    have hc : (signalHandler abi signalNumber signalInfo t).exceptionCause
        = Cause.AccessViolation := by
      simp [signalHandler, hne, h1, hw]
    exact ⟨hc, by rw [hcause, hc]⟩

/-- C7: when the thunk of a call calls `raiseException` with the exception `e` while
the jump buffer is the one of this call, the call returns a pointer to `e` itself
and allocates nothing, whatever cause the trap state records at that moment and
whether or not another exception was pending. -/
theorem catchRuntimeExceptions_raise (abi : SignalABI) (host : HostCalls) (frame : Nat)
    (thunk : Thunk) (s t : State) (e : ExceptionPtr)
    (hrun : thunkRun abi host frame thunk s = some (ThunkOutcome.raise (some e) t))
    (henv : t.setjmpEnv = some frame) :
    ∃ s', catchRuntimeExceptions abi host frame thunk s
            = CallOutcome.returned (Value.exception e) s'
      ∧ s'.heap = t.heap := by
  rw [catch_eq_afterThunk hrun]
  have hjump := jumpBack_of_some frame s.actionSEGV s.actionBUS
    s.actionFPE (t := raiseException (some e) t) henv rfl
  obtain ⟨s', hret, -, hheap, -⟩ := resetAndReturn_handlers s.actionSEGV s.actionBUS
    s.actionFPE (Value.exception e) (raiseException (some e) t)
  refine ⟨s', ?_, hheap⟩
  simp only [afterThunk]
  rw [hjump]
  exact hret

theorem signalHandler_memory_cause (abi : SignalABI) (signalNumber : Int)
    (signalInfo : SigInfo) (s : State)
    (hsig : signalNumber = abi.SIGSEGV ∨ signalNumber = abi.SIGBUS) :
    (signalHandler abi signalNumber signalInfo s).exceptionCause
      = if inStackWindow s.stackMinAddr signalInfo.si_addr then Cause.StackOverflow
        else Cause.AccessViolation := by
  have hne : signalNumber ≠ abi.SIGFPE := by
    rcases hsig with h | h
    · rw [h]; exact fun h => abi.fpe_ne_segv h.symm
    · rw [h]; exact fun h => abi.fpe_ne_bus h.symm
  simp only [signalHandler, hne, hsig, if_false, if_true]

theorem inStackWindow_of_range {m a : Nat} (hlow : 16384 ≤ m) (hhigh : m + 16384 < 2 ^ 64) :
    inStackWindow m a = true ↔ lessThan16KiBApart m a := by
  have h1 : ptrSub m 16384 = m - 16384 := by
    unfold ptrSub
    omega
  have h2 : ptrAdd m 16384 = m + 16384 := by
    unfold ptrAdd
    omega
  simp only [inStackWindow, h1, h2, lessThan16KiBApart, Bool.and_eq_true, decide_eq_true_eq]
  omega

/-- C8, as stated, fails.  With a stack of `0x7ffd00000000` bytes allowed,
`initSignalStack` computes the stack-limit address 4096; an invalid access at 4352,
256 bytes from it, is classified `AccessViolation`, because `stackMinAddr - 16384`
wraps around.  And with the usual 8 MiB, an access exactly 16384 bytes above the
stack-limit address is classified `AccessViolation` too. -/
theorem signalHandler_window_counterexample :
    (initSignalStack linuxABI
        { newAddr := 0x555500000000, sigaltstackResult := 0,
          rlim_cur := 0x7ffd00000000, signalStackInfoAddr := 0x7ffd00001000 }
        freshThread).map
      (fun s0 => (s0.stackMinAddr,
          (signalHandler linuxABI linuxABI.SIGSEGV { si_code := 1, si_addr := 4352 } s0).exceptionCause))
      = some (4096, Cause.AccessViolation)
    ∧ lessThan16KiBApart 4096 4352
    ∧ within16KiB 4096 4352
    ∧ exampleEntered.stackMinAddr = 0x7ffcff801000
    ∧ (signalHandler linuxABI linuxABI.SIGSEGV
          { si_code := 1, si_addr := 0x7ffcff801000 + 16384 } exampleEntered).exceptionCause
        = Cause.AccessViolation
    ∧ within16KiB 0x7ffcff801000 (0x7ffcff801000 + 16384) := by
  decide

/-- C8, amended: for a stack-limit address `m` with `16384 ≤ m` and
`m + 16384 < 2 ^ 64`, `signalHandler` classifies `SIGSEGV`, and likewise `SIGBUS`,
as `StackOverflow` exactly when the faulting address is less than 16384 bytes away
from `m`, and as `AccessViolation` otherwise; the cause depends on the faulting
address and the stack-limit address alone, not on the sub-code, on which of the two
signals it is, or on the rest of the state. -/
theorem signalHandler_stack_window (abi : SignalABI) (signalNumber : Int)
    (signalInfo : SigInfo) (s : State)
    (hsig : signalNumber = abi.SIGSEGV ∨ signalNumber = abi.SIGBUS)
    (hlow : 16384 ≤ s.stackMinAddr) (hhigh : s.stackMinAddr + 16384 < 2 ^ 64) :
    ((signalHandler abi signalNumber signalInfo s).exceptionCause = Cause.StackOverflow
        ↔ lessThan16KiBApart s.stackMinAddr signalInfo.si_addr)
    ∧ ((signalHandler abi signalNumber signalInfo s).exceptionCause = Cause.AccessViolation
        ↔ ¬ lessThan16KiBApart s.stackMinAddr signalInfo.si_addr)
    ∧ (∀ (signalNumber' : Int) (signalInfo' : SigInfo) (s' : State),
        signalNumber' = abi.SIGSEGV ∨ signalNumber' = abi.SIGBUS →
        signalInfo'.si_addr = signalInfo.si_addr →
        s'.stackMinAddr = s.stackMinAddr →
        (signalHandler abi signalNumber' signalInfo' s').exceptionCause
          = (signalHandler abi signalNumber signalInfo s).exceptionCause) := by
  have hw := inStackWindow_of_range (a := signalInfo.si_addr) hlow hhigh
  rw [signalHandler_memory_cause abi signalNumber signalInfo s hsig]
  refine ⟨?_, ?_, ?_⟩
  · rw [← hw]
    cases inStackWindow s.stackMinAddr signalInfo.si_addr <;> simp
  · rw [← hw]
    cases inStackWindow s.stackMinAddr signalInfo.si_addr <;> simp
  · intro signalNumber' signalInfo' s' hsig' haddr hmin
    rw [signalHandler_memory_cause abi signalNumber' signalInfo' s' hsig', haddr, hmin]

/-- C8, amended, at a concrete input: on Linux, with the stack-limit address
`0x7ffcff801000`, a `SIGSEGV` at `0x7ffcff800000` is a stack overflow. -/
theorem signalHandler_stack_window_witness :
    (linuxABI.SIGSEGV = linuxABI.SIGSEGV ∨ linuxABI.SIGSEGV = linuxABI.SIGBUS)
    ∧ 16384 ≤ exampleEntered.stackMinAddr
    ∧ exampleEntered.stackMinAddr + 16384 < 2 ^ 64
    ∧ lessThan16KiBApart exampleEntered.stackMinAddr 0x7ffcff800000
    ∧ (signalHandler linuxABI linuxABI.SIGSEGV { si_code := 1, si_addr := 0x7ffcff800000 }
          exampleEntered).exceptionCause = Cause.StackOverflow :=
  ⟨Or.inl rfl, by decide, by decide, by decide,
    (signalHandler_stack_window linuxABI linuxABI.SIGSEGV
        { si_code := 1, si_addr := 0x7ffcff800000 } exampleEntered
        (Or.inl rfl) (by decide) (by decide)).1.mpr (by decide)⟩

/-- C9: `signalHandler` classifies `SIGFPE` as `IntegerDivideByZeroOrIntegerOverflow`
exactly when the sub-code is `FPE_INTDIV` and as `Unknown` for every other sub-code;
a signal that is none of `SIGFPE`, `SIGSEGV`, `SIGBUS` is classified `Unknown`; and
the cause recorded before the handler ran has no influence on the cause it
records. -/
theorem signalHandler_arithmetic_and_unknown (abi : SignalABI) (signalNumber : Int)
    (signalInfo : SigInfo) (s : State) :
    (signalNumber = abi.SIGFPE →
        ((signalHandler abi signalNumber signalInfo s).exceptionCause
            = Cause.IntegerDivideByZeroOrIntegerOverflow
          ↔ signalInfo.si_code = abi.FPE_INTDIV)
        ∧ (signalInfo.si_code ≠ abi.FPE_INTDIV →
            (signalHandler abi signalNumber signalInfo s).exceptionCause = Cause.Unknown))
    ∧ (signalNumber ≠ abi.SIGFPE → signalNumber ≠ abi.SIGSEGV → signalNumber ≠ abi.SIGBUS →
        (signalHandler abi signalNumber signalInfo s).exceptionCause = Cause.Unknown)
    ∧ (∀ recorded : Cause,
        (signalHandler abi signalNumber signalInfo
            { s with exceptionCause := recorded }).exceptionCause
          = (signalHandler abi signalNumber signalInfo s).exceptionCause) := by
  refine ⟨?_, ?_, ?_⟩
  · intro hfpe
    by_cases hcode : signalInfo.si_code = abi.FPE_INTDIV
    · simp [signalHandler, hfpe, hcode]
    · simp [signalHandler, hfpe, hcode]
  · intro h1 h2 h3
    simp [signalHandler, h1, h2, h3]
  · intro recorded
    unfold signalHandler
    split
    · split <;> rfl
    · split <;> rfl

theorem catch_of_thunkRun_none {abi : SignalABI} {host : HostCalls} {frame : Nat}
    {thunk : Thunk} {s : State} (h : thunkRun abi host frame thunk s = none) :
    catchRuntimeExceptions abi host frame thunk s = CallOutcome.terminated := by
  unfold thunkRun enterThunk at h
  unfold catchRuntimeExceptions
  cases hi : initSignalStack abi host s with
  | none => rfl
  | some s0 => rw [hi] at h; simp at h

theorem jumpBack_returned {frame : Nat} {a b c : SigAction} {t s' : State} {r : Value}
    (h : jumpBack frame a b c t = CallOutcome.returned r s') : handlers s' = (a, b, c) := by
  by_cases henv : t.setjmpEnv = some frame
  · cases hp : t.exception with
    | some e =>
      rw [jumpBack_of_some frame a b c henv hp] at h
      obtain ⟨s'', h1, h2, -⟩ := resetAndReturn_handlers a b c (Value.exception e) t
      rw [h1] at h
      cases h
      exact h2
    | none =>
      rw [jumpBack_of_none frame a b c henv hp] at h
      obtain ⟨s'', h1, h2, -⟩ := resetAndReturn_handlers a b c
        (Value.exception t.heap.length) (newException t.exceptionCause t).2
      rw [h1] at h
      cases h
      exact h2
  · unfold jumpBack at h
    rw [if_neg henv] at h
    cases h

theorem afterThunk_returned {abi : SignalABI} {frame : Nat} {a b c : SigAction}
    {o : ThunkOutcome} {s' : State} {r : Value}
    (h : afterThunk abi frame a b c o = CallOutcome.returned r s') :
    handlers s' = (a, b, c) := by
  cases o with
  | completed v t =>
    obtain ⟨s'', h1, h2, -⟩ := resetAndReturn_handlers a b c v t
    simp only [afterThunk] at h
    rw [h1] at h
    cases h
    exact h2
  | fault signalNumber signalInfo t =>
    simp only [afterThunk] at h
    split at h
    · split at h
      · exact jumpBack_returned h
      · cases h
    · cases h
  | raise e t =>
    simp only [afterThunk] at h
    exact jumpBack_returned h
  | threw t =>
    simp only [afterThunk] at h
    cases h

theorem catch_fault_returns {abi : SignalABI} {host : HostCalls} {frame : Nat}
    {thunk : Thunk} {s t : State} {signalNumber : Int} {signalInfo : SigInfo}
    (hrun : thunkRun abi host frame thunk s
              = some (ThunkOutcome.fault signalNumber signalInfo t))
    (hdispatch : (actionFor abi signalNumber t).map SigAction.sa_sigaction
              = some SaHandler.signalHandler)
    (henv : t.setjmpEnv = some frame) :
    ∃ r s', catchRuntimeExceptions abi host frame thunk s = CallOutcome.returned r s'
      ∧ handlers s' = handlers s := by
  rw [catch_eq_afterThunk hrun]
  cases ha : actionFor abi signalNumber t with
  | none => rw [ha] at hdispatch; cases hdispatch
  | some action =>
    rw [ha] at hdispatch
    simp only [Option.map_some', Option.some.injEq] at hdispatch
    simp only [afterThunk, ha, hdispatch, if_true]
    exact jumpBack_returns s.actionSEGV s.actionBUS s.actionFPE
      ((signalHandler_frame abi signalNumber signalInfo t).1.trans henv)

theorem catch_raise_returns {abi : SignalABI} {host : HostCalls} {frame : Nat}
    {thunk : Thunk} {s t : State} {inException : Option ExceptionPtr}
    (hrun : thunkRun abi host frame thunk s = some (ThunkOutcome.raise inException t))
    (henv : t.setjmpEnv = some frame) :
    ∃ r s', catchRuntimeExceptions abi host frame thunk s = CallOutcome.returned r s'
      ∧ handlers s' = handlers s := by
  rw [catch_eq_afterThunk hrun]
  simp only [afterThunk]
  exact jumpBack_returns (t := raiseException inException t) s.actionSEGV s.actionBUS
    s.actionFPE henv

/-- C10: whenever `catchRuntimeExceptions` returns, the dispositions of `SIGSEGV`,
`SIGBUS` and `SIGFPE` are the ones that were installed when it was called; and it
does return on each of its three paths: when the thunk completes, when the thunk's
signal is dispatched to `signalHandler` with the jump buffer of this call, and when
the thunk calls `raiseException` with the jump buffer of this call. -/
theorem catchRuntimeExceptions_restores_handlers (abi : SignalABI) (host : HostCalls)
    (frame : Nat) (thunk : Thunk) (s : State) :
    (∀ (r : Value) (s' : State),
        catchRuntimeExceptions abi host frame thunk s = CallOutcome.returned r s' →
        handlers s' = handlers s)
    ∧ (∀ (v : Value) (t : State),
        thunkRun abi host frame thunk s = some (ThunkOutcome.completed v t) →
        ∃ s', catchRuntimeExceptions abi host frame thunk s = CallOutcome.returned v s'
          ∧ handlers s' = handlers s)
    ∧ (∀ (signalNumber : Int) (signalInfo : SigInfo) (t : State),
        thunkRun abi host frame thunk s
          = some (ThunkOutcome.fault signalNumber signalInfo t) →
        (actionFor abi signalNumber t).map SigAction.sa_sigaction
          = some SaHandler.signalHandler →
        t.setjmpEnv = some frame →
        ∃ r s', catchRuntimeExceptions abi host frame thunk s = CallOutcome.returned r s'
          ∧ handlers s' = handlers s)
    ∧ (∀ (inException : Option ExceptionPtr) (t : State),
        thunkRun abi host frame thunk s = some (ThunkOutcome.raise inException t) →
        t.setjmpEnv = some frame →
        ∃ r s', catchRuntimeExceptions abi host frame thunk s = CallOutcome.returned r s'
          ∧ handlers s' = handlers s) := by
  refine ⟨?_, ?_, ?_, ?_⟩
  · intro r s' h
    cases hrun : thunkRun abi host frame thunk s with
    | none => rw [catch_of_thunkRun_none hrun] at h; cases h
    | some o =>
      rw [catch_eq_afterThunk hrun] at h
      exact afterThunk_returned h
  · intro v t h
    exact catch_completed h
  · intro signalNumber signalInfo t h hd henv
    exact catch_fault_returns h hd henv
  · intro inException t h henv
    exact catch_raise_returns h henv

/-- C10 at concrete inputs: a thunk that sets `SIGFPE` to be ignored and returns, a
thunk that divides by zero, and a thunk that raises a null exception, each started
on `freshThread`; every call returns with the default dispositions back in place. -/
theorem catchRuntimeExceptions_restores_handlers_witness :
    (∃ s', catchRuntimeExceptions linuxABI exampleHost 1
              (fun st => ThunkOutcome.completed (Value.payload 5)
                { st with actionFPE := { defaultAction with sa_sigaction := SaHandler.SIG_IGN } })
              freshThread
            = CallOutcome.returned (Value.payload 5) s'
        ∧ handlers s' = (defaultAction, defaultAction, defaultAction))
    ∧ (∃ r s', catchRuntimeExceptions linuxABI exampleHost 1
              (fun st => ThunkOutcome.fault 8 { si_code := 1, si_addr := 0 } st) freshThread
            = CallOutcome.returned r s'
        ∧ handlers s' = (defaultAction, defaultAction, defaultAction))
    ∧ (∃ r s', catchRuntimeExceptions linuxABI exampleHost 1
              (fun st => ThunkOutcome.raise none st) freshThread
            = CallOutcome.returned r s'
        ∧ handlers s' = (defaultAction, defaultAction, defaultAction)) :=
  ⟨(catchRuntimeExceptions_restores_handlers linuxABI exampleHost 1 _ freshThread).2.1
      (Value.payload 5)
      { exampleEntered with actionFPE := { defaultAction with sa_sigaction := SaHandler.SIG_IGN } }
      (by decide),
   (catchRuntimeExceptions_restores_handlers linuxABI exampleHost 1 _ freshThread).2.2.1
      8 { si_code := 1, si_addr := 0 } exampleEntered (by decide) (by decide) (by decide),
   (catchRuntimeExceptions_restores_handlers linuxABI exampleHost 1 _ freshThread).2.2.2
      none exampleEntered (by decide) (by decide)⟩

/-- C5 at a concrete input: on `freshThread` a thunk returning the payload 42 gives
the payload 42 and the default dispositions are back in place. -/
theorem catchRuntimeExceptions_completed_witness :
    thunkRun linuxABI exampleHost 1 (fun st => ThunkOutcome.completed (Value.payload 42) st)
        freshThread
      = some (ThunkOutcome.completed (Value.payload 42) exampleEntered)
    ∧ ∃ s1, catchRuntimeExceptions linuxABI exampleHost 1
              (fun st => ThunkOutcome.completed (Value.payload 42) st) freshThread
            = CallOutcome.returned (Value.payload 42) s1
        ∧ handlers s1 = handlers freshThread :=
  ⟨by decide,
   (catchRuntimeExceptions_completed linuxABI exampleHost 1
      (fun st => ThunkOutcome.completed (Value.payload 42) st) freshThread exampleEntered
      (Value.payload 42) (by decide)).imp fun _ h => ⟨h.1, h.2.1⟩⟩

/-- C6 at concrete inputs: on `freshThread` a thunk that ends in `SIGFPE` with
sub-code `FPE_INTDIV` makes the call return the exception allocated at heap index 0,
whose cause is `IntegerDivideByZeroOrIntegerOverflow`; a thunk that ends in
`SIGSEGV` at address 0, far below the stack-limit address `0x7ffcff801000`, makes it
return an exception whose cause is `AccessViolation`. -/
theorem catchRuntimeExceptions_fault_witness :
    thunkRun linuxABI exampleHost 1
        (fun st => ThunkOutcome.fault 8 { si_code := 1, si_addr := 0 } st) freshThread
      = some (ThunkOutcome.fault 8 { si_code := 1, si_addr := 0 } exampleEntered)
    ∧ (actionFor linuxABI 8 exampleEntered).map SigAction.sa_sigaction
        = some SaHandler.signalHandler
    ∧ exampleEntered.setjmpEnv = some 1
    ∧ exampleEntered.exception = none
    ∧ (∃ s', catchRuntimeExceptions linuxABI exampleHost 1
              (fun st => ThunkOutcome.fault 8 { si_code := 1, si_addr := 0 } st) freshThread
            = CallOutcome.returned (Value.exception 0) s'
        ∧ (s'.heap.get? 0).map Exception.cause
            = some Cause.IntegerDivideByZeroOrIntegerOverflow)
    ∧ thunkRun linuxABI exampleHost 1
        (fun st => ThunkOutcome.fault 11 { si_code := 1, si_addr := 0 } st) freshThread
      = some (ThunkOutcome.fault 11 { si_code := 1, si_addr := 0 } exampleEntered)
    ∧ (actionFor linuxABI 11 exampleEntered).map SigAction.sa_sigaction
        = some SaHandler.signalHandler
    ∧ exampleEntered.stackMinAddr = 0x7ffcff801000
    ∧ (∃ s', catchRuntimeExceptions linuxABI exampleHost 1
              (fun st => ThunkOutcome.fault 11 { si_code := 1, si_addr := 0 } st) freshThread
            = CallOutcome.returned (Value.exception 0) s'
        ∧ (s'.heap.get? 0).map Exception.cause = some Cause.AccessViolation) := by
  refine ⟨by decide, by decide, by decide, by decide, ?_, by decide, by decide, by decide, ?_⟩
  · obtain ⟨s', h1, -, -, h4, -⟩ := catchRuntimeExceptions_fault linuxABI exampleHost 1
      (fun st => ThunkOutcome.fault 8 { si_code := 1, si_addr := 0 } st) freshThread
      exampleEntered 8 { si_code := 1, si_addr := 0 } (by decide) (by decide) (by decide)
      (by decide)
    exact ⟨s', h1, (h4 rfl rfl).2⟩
  · obtain ⟨s', h1, -, -, -, h5⟩ := catchRuntimeExceptions_fault linuxABI exampleHost 1
      (fun st => ThunkOutcome.fault 11 { si_code := 1, si_addr := 0 } st) freshThread
      exampleEntered 11 { si_code := 1, si_addr := 0 } (by decide) (by decide) (by decide)
      (by decide)
    exact ⟨s', h1, (h5 (Or.inl rfl) (by decide) (Or.inl (by decide))).2⟩

/-- C7 at a concrete input: on `freshThread` a thunk that records the cause
`StackOverflow` and raises the exception at heap index 7 makes the call return that
pointer, with nothing allocated. -/
theorem catchRuntimeExceptions_raise_witness :
    thunkRun linuxABI exampleHost 1
        (fun st => ThunkOutcome.raise (some 7) { st with exceptionCause := Cause.StackOverflow })
        freshThread
      = some (ThunkOutcome.raise (some 7)
          { exampleEntered with exceptionCause := Cause.StackOverflow })
    ∧ exampleEntered.setjmpEnv = some 1
    ∧ ∃ s', catchRuntimeExceptions linuxABI exampleHost 1
              (fun st => ThunkOutcome.raise (some 7)
                { st with exceptionCause := Cause.StackOverflow })
              freshThread
            = CallOutcome.returned (Value.exception 7) s'
        ∧ s'.heap = [] :=
  ⟨by decide, by decide,
   catchRuntimeExceptions_raise linuxABI exampleHost 1
      (fun st => ThunkOutcome.raise (some 7) { st with exceptionCause := Cause.StackOverflow })
      freshThread { exampleEntered with exceptionCause := Cause.StackOverflow } 7
      (by decide) (by decide)⟩

end RuntimePlatform

/-! ## Theorems: trap state, nesting, stack capture, one-time initialisation -/

namespace RuntimePlatform

open Runtime

theorem resetAndReturn_state (a b c : SigAction) (r : Value) (t : State) :
    ∃ s', resetAndReturn a b c r t = CallOutcome.returned r s'
      ∧ s'.exceptionCause = Cause.Unknown ∧ s'.exception = none
      ∧ s'.setjmpEnv = t.setjmpEnv ∧ s'.heap = t.heap ∧ handlers s' = (a, b, c) :=
  ⟨_, rfl, rfl, rfl, rfl, rfl, rfl⟩

theorem jumpBack_returned_state {frame : Nat} {a b c : SigAction} {t s' : State} {r : Value}
    (h : jumpBack frame a b c t = CallOutcome.returned r s') :
    s'.exceptionCause = Cause.Unknown ∧ s'.exception = none
      ∧ s'.setjmpEnv = some frame := by
  by_cases henv : t.setjmpEnv = some frame
  · cases hp : t.exception with
    | some e =>
      rw [jumpBack_of_some frame a b c henv hp] at h
      obtain ⟨s'', h1, h2, h3, h4, -⟩ := resetAndReturn_state a b c (Value.exception e) t
      rw [h1] at h
      cases h
      exact ⟨h2, h3, h4.trans henv⟩
    | none =>
      rw [jumpBack_of_none frame a b c henv hp] at h
      obtain ⟨s'', h1, h2, h3, h4, -⟩ := resetAndReturn_state a b c
        (Value.exception t.heap.length) (newException t.exceptionCause t).2
      rw [h1] at h
      cases h
      exact ⟨h2, h3, h4.trans henv⟩
  · unfold jumpBack at h
    rw [if_neg henv] at h
    cases h

theorem afterThunk_returned_state {abi : SignalABI} {frame : Nat} {a b c : SigAction}
    {o : ThunkOutcome} {s' : State} {r : Value}
    (h : afterThunk abi frame a b c o = CallOutcome.returned r s') :
    s'.exceptionCause = Cause.Unknown ∧ s'.exception = none
      ∧ ((∀ v t, o = ThunkOutcome.completed v t → t.setjmpEnv = some frame) →
          s'.setjmpEnv = some frame) := by
  cases o with
  | completed v t =>
    obtain ⟨s'', h1, h2, h3, h4, -⟩ := resetAndReturn_state a b c v t
    simp only [afterThunk] at h
    rw [h1] at h
    cases h
    exact ⟨h2, h3, fun hc => h4.trans (hc _ t rfl)⟩
  | fault signalNumber signalInfo t =>
    simp only [afterThunk] at h
    split at h
    · split at h
      · obtain ⟨h2, h3, h4⟩ := jumpBack_returned_state h
        exact ⟨h2, h3, fun _ => h4⟩
      · cases h
    · cases h
  | raise e t =>
    simp only [afterThunk] at h
    obtain ⟨h2, h3, h4⟩ := jumpBack_returned_state h
    exact ⟨h2, h3, fun _ => h4⟩
  | threw t =>
    simp only [afterThunk] at h
    cases h

theorem catch_returned_state {abi : SignalABI} {host : HostCalls} {frame : Nat}
    {thunk : Thunk} {s s' : State} {r : Value}
    (h : catchRuntimeExceptions abi host frame thunk s = CallOutcome.returned r s') :
    s'.exceptionCause = Cause.Unknown ∧ s'.exception = none ∧ handlers s' = handlers s
      ∧ ((∀ v t, thunkRun abi host frame thunk s = some (ThunkOutcome.completed v t) →
            t.setjmpEnv = some frame) → s'.setjmpEnv = some frame) := by
  cases hrun : thunkRun abi host frame thunk s with
  | none => rw [catch_of_thunkRun_none hrun] at h; cases h
  | some o =>
    rw [catch_eq_afterThunk hrun] at h
    obtain ⟨h1, h2, h3⟩ := afterThunk_returned_state h
    refine ⟨h1, h2, afterThunk_returned h, fun hc => h3 ?_⟩
    intro v t ho
    exact hc v t (by rw [ho])

theorem enterThunk_exception {abi : SignalABI} {host : HostCalls} {frame : Nat}
    {s u : State} (h : enterThunk abi host frame s = some u) :
    u.exception = s.exception ∧ u.setjmpEnv = some frame ∧ u.heap = s.heap := by
  unfold enterThunk at h
  cases hi : initSignalStack abi host s with
  | none => rw [hi] at h; cases h
  | some s0 =>
    rw [hi] at h
    simp only [Option.some.injEq] at h
    subst h
    unfold initSignalStack at hi
    split at hi
    · cases hi; exact ⟨rfl, rfl, rfl⟩
    · split at hi
      · cases hi
      · cases hi; exact ⟨rfl, rfl, rfl⟩

theorem catch_fault_synthesized {abi : SignalABI} {host : HostCalls} {frame : Nat}
    {thunk : Thunk} {s t : State} {signalNumber : Int} {signalInfo : SigInfo}
    (hrun : thunkRun abi host frame thunk s
              = some (ThunkOutcome.fault signalNumber signalInfo t))
    (hdispatch : (actionFor abi signalNumber t).map SigAction.sa_sigaction
              = some SaHandler.signalHandler)
    (henv : t.setjmpEnv = some frame)
    (hpending : t.exception = none) :
    ∃ s', catchRuntimeExceptions abi host frame thunk s
            = CallOutcome.returned (Value.exception t.heap.length) s'
      ∧ s'.heap = t.heap ++
          [{ cause := (signalHandler abi signalNumber signalInfo t).exceptionCause }] := by
  rw [catch_eq_afterThunk hrun]
  obtain ⟨hf, he, hheap⟩ := signalHandler_frame abi signalNumber signalInfo t
  cases ha : actionFor abi signalNumber t with
  | none => rw [ha] at hdispatch; cases hdispatch
  | some action =>
    rw [ha] at hdispatch
    simp only [Option.map_some', Option.some.injEq] at hdispatch
    have hjump := jumpBack_of_none frame s.actionSEGV s.actionBUS s.actionFPE
      (t := signalHandler abi signalNumber signalInfo t) (hf.trans henv) (he.trans hpending)
    obtain ⟨s', hret, -, -, -, hheap', -⟩ := resetAndReturn_state s.actionSEGV s.actionBUS
      s.actionFPE (Value.exception (signalHandler abi signalNumber signalInfo t).heap.length)
      (newException (signalHandler abi signalNumber signalInfo t).exceptionCause
        (signalHandler abi signalNumber signalInfo t)).2
    rw [hheap] at hret
    refine ⟨s', ?_, ?_⟩
    · simp only [afterThunk, ha, hdispatch, if_true]
      rw [hjump, hheap]
      exact hret
    · rw [hheap']; simp only [newException, hheap]

/-- C11: whenever `catchRuntimeExceptions` returns, `exceptionCause` is `Unknown` and
`exception` is null, whatever they were when it was called; and when a call that
ends through `raiseException (some e)` is followed by a call whose thunk leaves the
`exception` slot alone and ends in a signal dispatched to `signalHandler`, the
second call returns a newly allocated exception that carries the cause of the second
signal, not the pointer `e`. -/
theorem catchRuntimeExceptions_resets_trap_state (abi : SignalABI) (host : HostCalls)
    (frame : Nat) (thunk : Thunk) (s : State) :
    (∀ (r : Value) (s' : State),
        catchRuntimeExceptions abi host frame thunk s = CallOutcome.returned r s' →
        s'.exceptionCause = Cause.Unknown ∧ s'.exception = none)
    ∧ (∀ (e : ExceptionPtr) (t1 : State),
        thunkRun abi host frame thunk s = some (ThunkOutcome.raise (some e) t1) →
        t1.setjmpEnv = some frame →
        ∃ s1, catchRuntimeExceptions abi host frame thunk s
                = CallOutcome.returned (Value.exception e) s1
          ∧ s1.exceptionCause = Cause.Unknown ∧ s1.exception = none
          ∧ ∀ (host2 : HostCalls) (frame2 : Nat) (thunk2 : Thunk) (u2 t2 : State)
              (signalNumber : Int) (signalInfo : SigInfo),
              enterThunk abi host2 frame2 s1 = some u2 →
              thunk2 u2 = ThunkOutcome.fault signalNumber signalInfo t2 →
              t2.exception = u2.exception →
              (actionFor abi signalNumber t2).map SigAction.sa_sigaction
                = some SaHandler.signalHandler →
              t2.setjmpEnv = some frame2 →
              ∃ s2, catchRuntimeExceptions abi host2 frame2 thunk2 s1
                      = CallOutcome.returned (Value.exception t2.heap.length) s2
                ∧ s2.heap = t2.heap ++
                    [{ cause := (signalHandler abi signalNumber signalInfo t2).exceptionCause }]
                ∧ (e < t2.heap.length →
                    Value.exception t2.heap.length ≠ Value.exception e)
                ∧ s2.exceptionCause = Cause.Unknown ∧ s2.exception = none) := by
  refine ⟨?_, ?_⟩
  · intro r s' h
    obtain ⟨h1, h2, -⟩ := catch_returned_state h
    exact ⟨h1, h2⟩
  · intro e t1 hrun henv
    rw [catch_eq_afterThunk hrun]
    have hjump := jumpBack_of_some frame s.actionSEGV s.actionBUS s.actionFPE
      (t := raiseException (some e) t1) (e := e) henv rfl
    obtain ⟨s1, hret, hc, hx, -⟩ := resetAndReturn_state s.actionSEGV s.actionBUS
      s.actionFPE (Value.exception e) (raiseException (some e) t1)
    refine ⟨s1, ?_, hc, hx, ?_⟩
    · simp only [afterThunk]
      rw [hjump]
      exact hret
    · intro host2 frame2 thunk2 u2 t2 signalNumber signalInfo hent hth hkeep hdisp henv2
      have hrun2 : thunkRun abi host2 frame2 thunk2 s1
          = some (ThunkOutcome.fault signalNumber signalInfo t2) := by
        unfold thunkRun
        rw [hent, Option.map_some', hth]
      have hnone : t2.exception = none := by
        rw [hkeep, (enterThunk_exception hent).1, hx]
      obtain ⟨s2, hc2, hheap2⟩ := catch_fault_synthesized hrun2 hdisp henv2 hnone
      obtain ⟨hu, hn, -⟩ := catch_returned_state hc2
      refine ⟨s2, hc2, hheap2, ?_, hu, hn⟩
      intro hlt heq
      cases heq
      exact Nat.lt_irrefl _ hlt

end RuntimePlatform

namespace RuntimePlatform

open Runtime

/-- C11 at concrete inputs: on `freshThread` a call whose thunk raises the exception
at heap index 7 returns with the trap state reset; a second call whose thunk ends in
`SIGFPE` with `FPE_INTDIV` then returns the exception allocated at heap index 0. -/
theorem catchRuntimeExceptions_resets_trap_state_witness :
    ∃ s1, catchRuntimeExceptions linuxABI exampleHost 1
            (fun st => ThunkOutcome.raise (some 7) st) freshThread
          = CallOutcome.returned (Value.exception 7) s1
      ∧ s1.exceptionCause = Cause.Unknown ∧ s1.exception = none
      ∧ ∃ s2, catchRuntimeExceptions linuxABI exampleHost 1
                (fun st => ThunkOutcome.fault 8 { si_code := 1, si_addr := 0 } st) s1
              = CallOutcome.returned (Value.exception 0) s2
          ∧ s2.heap = [{ cause := Cause.IntegerDivideByZeroOrIntegerOverflow }] := by
  obtain ⟨s1, h1, h2, h3, h4⟩ :=
    (catchRuntimeExceptions_resets_trap_state linuxABI exampleHost 1
      (fun st => ThunkOutcome.raise (some 7) st) freshThread).2 7 exampleEntered
      (by decide) (by decide)
  refine ⟨s1, h1, h2, h3, ?_⟩
  have hs1 : s1 = { exampleEntered with
      actionSEGV := defaultAction, actionBUS := defaultAction, actionFPE := defaultAction } := by
    have hd : catchRuntimeExceptions linuxABI exampleHost 1
        (fun st => ThunkOutcome.raise (some 7) st) freshThread
        = CallOutcome.returned (Value.exception 7) { exampleEntered with
            actionSEGV := defaultAction, actionBUS := defaultAction,
            actionFPE := defaultAction } := by decide
    rw [hd] at h1
    cases h1
    rfl
  subst hs1
  obtain ⟨s2, h5, h6, -⟩ := h4 exampleHost 1
    (fun st => ThunkOutcome.fault 8 { si_code := 1, si_addr := 0 } st)
    exampleEntered exampleEntered 8 { si_code := 1, si_addr := 0 }
    (by decide) rfl rfl (by decide) (by decide)
  exact ⟨s2, h5, h6⟩

/-- C12, as stated, fails.  An inner call (activation 2) made from the thunk of an
outer call (activation 1) returns with `setjmpEnv` holding activation 2, not
activation 1 as before the inner call, and with a recorded cause and a pending
exception replaced by `Unknown` and null; the `raiseException` that the outer thunk
performs after the inner call does not make the outer call return. -/
theorem nested_call_counterexample :
    exampleEntered.setjmpEnv = some 1
    ∧ catchRuntimeExceptions linuxABI exampleHost 2
        (fun u => ThunkOutcome.completed (Value.payload 0) u) exampleEntered
      = CallOutcome.returned (Value.payload 0) { exampleEntered with setjmpEnv := some 2 }
    ∧ catchRuntimeExceptions linuxABI exampleHost 2
        (fun u => ThunkOutcome.completed (Value.payload 0) u)
        { exampleEntered with exceptionCause := Cause.StackOverflow, exception := some 3 }
      = CallOutcome.returned (Value.payload 0) { exampleEntered with setjmpEnv := some 2 }
    ∧ catchRuntimeExceptions linuxABI exampleHost 1 nestedThenRaise freshThread
      = CallOutcome.jumped (some 2)
          { exampleEntered with setjmpEnv := some 2, exception := some 7 } := by
  decide

/-- C12, amended: when a call of `catchRuntimeExceptions` made while another one is
active returns, the dispositions of the three signals are those of before the inner
call, `exceptionCause` is `Unknown` and `exception` is null whatever they were, and
`setjmpEnv` holds the inner activation when the inner thunk left it in place; a
`raiseException`, or a signal dispatched to `signalHandler`, that occurs in the outer
thunk while `setjmpEnv` holds the inner activation does not resume the outer call. -/
theorem nested_call_overwrites_trap_state (abi : SignalABI) (host2 : HostCalls)
    (frame1 frame2 : Nat) (inner : Thunk) (u : State) (hframes : frame1 ≠ frame2) :
    (∀ (r : Value) (u' : State),
        catchRuntimeExceptions abi host2 frame2 inner u = CallOutcome.returned r u' →
        handlers u' = handlers u
          ∧ u'.exceptionCause = Cause.Unknown ∧ u'.exception = none
          ∧ ((∀ v t, thunkRun abi host2 frame2 inner u
                  = some (ThunkOutcome.completed v t) → t.setjmpEnv = some frame2) →
              u'.setjmpEnv = some frame2))
    ∧ (∀ (host1 : HostCalls) (outer : Thunk) (s t : State) (e : Option ExceptionPtr),
        thunkRun abi host1 frame1 outer s = some (ThunkOutcome.raise e t) →
        t.setjmpEnv = some frame2 →
        catchRuntimeExceptions abi host1 frame1 outer s
          = CallOutcome.jumped (some frame2) (raiseException e t))
    ∧ (∀ (host1 : HostCalls) (outer : Thunk) (s t : State) (signalNumber : Int)
          (signalInfo : SigInfo),
        thunkRun abi host1 frame1 outer s
          = some (ThunkOutcome.fault signalNumber signalInfo t) →
        (actionFor abi signalNumber t).map SigAction.sa_sigaction
          = some SaHandler.signalHandler →
        t.setjmpEnv = some frame2 →
        catchRuntimeExceptions abi host1 frame1 outer s
          = CallOutcome.jumped (some frame2) (signalHandler abi signalNumber signalInfo t)) := by
  have hne : (some frame2 : Option Nat) ≠ some frame1 := by
    intro h
    cases h
    exact hframes rfl
  refine ⟨?_, ?_, ?_⟩
  · intro r u' h
    obtain ⟨h1, h2, h3, h4⟩ := catch_returned_state h
    exact ⟨h3, h1, h2, h4⟩
  · intro host1 outer s t e hrun henv
    rw [catch_eq_afterThunk hrun]
    have henv' : (raiseException e t).setjmpEnv = some frame2 := henv
    simp only [afterThunk, jumpBack, henv', hne, if_false]
  · intro host1 outer s t signalNumber signalInfo hrun hdispatch henv
    rw [catch_eq_afterThunk hrun]
    have henv' : (signalHandler abi signalNumber signalInfo t).setjmpEnv = some frame2 :=
      (signalHandler_frame abi signalNumber signalInfo t).1.trans henv
    cases ha : actionFor abi signalNumber t with
    | none => rw [ha] at hdispatch; cases hdispatch
    | some action =>
      rw [ha] at hdispatch
      simp only [Option.map_some', Option.some.injEq] at hdispatch
      simp only [afterThunk, ha, hdispatch, if_true, jumpBack, henv', hne, if_false]

/-- C12, amended, at a concrete input: the outer call (activation 1) on
`freshThread` whose thunk runs an inner call (activation 2) and then raises. -/
theorem nested_call_overwrites_trap_state_witness :
    (1 : Nat) ≠ 2
    ∧ thunkRun linuxABI exampleHost 1 nestedThenRaise freshThread
        = some (ThunkOutcome.raise (some 7) { exampleEntered with setjmpEnv := some 2 })
    ∧ catchRuntimeExceptions linuxABI exampleHost 1 nestedThenRaise freshThread
        = CallOutcome.jumped (some 2)
            (raiseException (some 7) { exampleEntered with setjmpEnv := some 2 }) :=
  ⟨by decide, by decide,
   (nested_call_overwrites_trap_state linuxABI exampleHost 1 2
      (fun u => ThunkOutcome.completed (Value.payload 0) u) exampleEntered (by decide)).2.1
      exampleHost nestedThenRaise freshThread { exampleEntered with setjmpEnv := some 2 }
      (some 7) (by decide) rfl⟩

end RuntimePlatform

namespace RuntimePlatform

open Runtime

theorem foldl_push_range (f : Nat → StackFrame) (n : Nat) :
    ((List.range n).foldl
        (fun (result : ExecutionContext) index =>
          { stackFrames := result.stackFrames ++ [f index] })
        (ExecutionContext.mk [])).stackFrames
      = (List.range n).map f := by
  induction n with
  | zero => rfl
  | succ n ih =>
    rw [List.range_succ, List.foldl_append, List.map_append]
    simp only [List.foldl_cons, List.foldl_nil, List.map_cons, List.map_nil]
    rw [ih]

theorem map_getD_range (l : List Nat) :
    (List.range l.length).map (fun index => l.getD index 0) = l := by
  apply List.ext_getElem
  · simp
  · intro i h1 h2
    simp [List.getD, List.getElem?_eq_getElem h2]

theorem captureExecutionContext_linux (unwound : List Nat) :
    (captureExecutionContext true unwound).stackFrames
      = (unwound.take 512).map (fun a => { ip := a, ipOffset := 0 }) := by
  simp only [captureExecutionContext, backtrace, if_true, Int.toNat_ofNat]
  rw [foldl_push_range (fun index => { ip := (unwound.take 512).getD index 0, ipOffset := 0 })]
  conv_rhs => rw [← map_getD_range (unwound.take 512)]
  rw [List.map_map]
  rfl

/-- C13: with unwinding support, whatever return addresses the unwinder finds,
`captureExecutionContext` returns as many frames as `backtrace` reported, at most
512; frame `i` holds the `i`-th reported address and the offset 0; so when the
unwinder reports `min D 512` addresses for a call chain of depth `D`, the context
has at least `min D 512` frames.  Without unwinding support the context has no
frames. -/
theorem captureExecutionContext_frames (unwound : List Nat) :
    (captureExecutionContext true unwound).stackFrames
        = (backtrace unwound 512).1.map (fun a => { ip := a, ipOffset := 0 })
    ∧ ((captureExecutionContext true unwound).stackFrames.length : Int)
        = (backtrace unwound 512).2
    ∧ (captureExecutionContext true unwound).stackFrames.length ≤ 512
    ∧ (∀ i, i < (captureExecutionContext true unwound).stackFrames.length →
        (captureExecutionContext true unwound).stackFrames.get? i
          = ((backtrace unwound 512).1.get? i).map (fun a => { ip := a, ipOffset := 0 })
        ∧ (backtrace unwound 512).1.get? i = unwound.get? i)
    ∧ (∀ D : Nat, (backtrace unwound 512).2 = ((min D 512 : Nat) : Int) →
        min D 512 ≤ (captureExecutionContext true unwound).stackFrames.length)
    ∧ (unwound.length = min unwound.length 512 ∨ 512 = min unwound.length 512)
    ∧ (captureExecutionContext true unwound).stackFrames.length = min unwound.length 512
    ∧ (captureExecutionContext false unwound).stackFrames = [] := by
  have h := captureExecutionContext_linux unwound
  have hlen : (captureExecutionContext true unwound).stackFrames.length
      = min unwound.length 512 := by
    rw [h, List.length_map, List.length_take, Nat.min_comm]
  refine ⟨h, ?_, ?_, ?_, ?_, ?_, hlen, rfl⟩
  · rw [h]
    simp [backtrace]
  · rw [hlen]
    exact Nat.min_le_right _ _
  · intro i hi
    refine ⟨?_, ?_⟩
    · rw [h]
      simp only [backtrace, List.get?_eq_getElem?, List.getElem?_map]
    · rw [hlen] at hi
      simp only [backtrace, List.get?_eq_getElem?]
      rw [List.getElem?_take]
      have : i < 512 := by omega
      simp [this]
  · intro D hD
    have h2 : ((captureExecutionContext true unwound).stackFrames.length : Int)
        = ((min D 512 : Nat) : Int) := by
      rw [← hD, h]
      simp [backtrace]
    have h3 := Int.ofNat.inj h2
    omega
  · omega

/-- C14: the first `initSignalStack` on a thread, when `sigaltstack` succeeds,
records the allocated alternate stack, the stack size `rlim_cur` and the stack-limit
address `&signalStackInfo - stackSize` (the difference of the two numbers when the
limit does not exceed the address); every `initSignalStack` on a thread whose
`signalStack` is set returns the state as it is, and a later
`catchRuntimeExceptions` reaches its thunk with the same alternate stack, stack size
and stack-limit address. -/
theorem initSignalStack_once (abi : SignalABI) (host : HostCalls) (s : State)
    (hfirst : s.signalStack = none) (hok : 0 ≤ host.sigaltstackResult) :
    ∃ s1, initSignalStack abi host s = some s1
      ∧ s1.signalStack = some host.newAddr
      ∧ s1.altStack
          = some { ss_sp := host.newAddr, ss_flags := 0, ss_size := abi.SIGSTKSZ }
      ∧ s1.stackSize = host.rlim_cur % 2 ^ 64
      ∧ s1.stackMinAddr = ptrSub host.signalStackInfoAddr host.rlim_cur
      ∧ (host.rlim_cur ≤ host.signalStackInfoAddr → host.signalStackInfoAddr < 2 ^ 64 →
          s1.stackMinAddr = host.signalStackInfoAddr - host.rlim_cur)
      ∧ (∀ host2 : HostCalls, initSignalStack abi host2 s1 = some s1)
      ∧ (∀ (host2 : HostCalls) (s2 : State), s2.signalStack ≠ none →
          initSignalStack abi host2 s2 = some s2)
      ∧ (∀ (host2 : HostCalls) (frame : Nat), ∃ u,
          enterThunk abi host2 frame s1 = some u
            ∧ u.signalStack = s1.signalStack ∧ u.altStack = s1.altStack
            ∧ u.stackSize = s1.stackSize ∧ u.stackMinAddr = s1.stackMinAddr) := by
  have hlt : ¬ host.sigaltstackResult < 0 := by omega
  have hkeep : ∀ (host2 : HostCalls) (s2 : State), s2.signalStack ≠ none →
      initSignalStack abi host2 s2 = some s2 := by
    intro host2 s2 h2
    unfold initSignalStack
    cases hs : s2.signalStack with
    | none => exact absurd hs h2
    | some p => rfl
  have hmin : ptrSub host.signalStackInfoAddr (host.rlim_cur % 2 ^ 64)
      = ptrSub host.signalStackInfoAddr host.rlim_cur := by
    unfold ptrSub
    rw [Nat.mod_mod]
  refine ⟨{ s with
      signalStack := some host.newAddr
      altStack := some { ss_sp := host.newAddr, ss_flags := 0, ss_size := abi.SIGSTKSZ }
      stackSize := host.rlim_cur % 2 ^ 64
      stackMinAddr := ptrSub host.signalStackInfoAddr (host.rlim_cur % 2 ^ 64) },
    ?_, rfl, rfl, rfl, hmin, ?_, ?_, hkeep, ?_⟩
  · unfold initSignalStack
    rw [hfirst]
    simp only [hlt, if_false]
  · intro h1 h2
    show ptrSub host.signalStackInfoAddr (host.rlim_cur % 2 ^ 64) = _
    unfold ptrSub
    omega
  · intro host2
    exact hkeep host2 _ (by simp)
  · intro host2 frame
    unfold enterThunk
    rw [hkeep host2 _ (by simp)]
    exact ⟨_, rfl, rfl, rfl, rfl, rfl⟩

/-- C14 at a concrete input: the first `initSignalStack` on `freshThread` with
`exampleHost`. -/
theorem initSignalStack_once_witness :
    freshThread.signalStack = none ∧ 0 ≤ exampleHost.sigaltstackResult
    ∧ ∃ s1, initSignalStack linuxABI exampleHost freshThread = some s1
        ∧ s1.signalStack = some 0x555500000000
        ∧ s1.stackMinAddr = 0x7ffcff801000
        ∧ initSignalStack linuxABI exampleHost s1 = some s1 := by
  refine ⟨rfl, by decide, ?_⟩
  obtain ⟨s1, h1, h2, -, -, -, h6, h7, -⟩ :=
    initSignalStack_once linuxABI exampleHost freshThread rfl (by decide)
  exact ⟨s1, h1, h2, (h6 (by decide) (by decide)).trans (by decide), h7 exampleHost⟩

end RuntimePlatform

namespace AST

set_option maxRecDepth 100000 in
/-- C15: in every class the first seventeen enumerators are the Any opcodes with the
codes 0 to 16, in the order of `AnyOp`; so an Any opcode has the same code in
`AnyOp`, `IntOp`, `FloatOp`, `VoidOp` and `NoneOp`, and every opcode of a class that
is not an Any opcode has a code of 17 or more. -/
theorem any_ops_share_codes (c : TypeClass) :
    (classOps c).take 17 = AnyOp
    ∧ AnyOp.map Prod.snd = List.range 17
    ∧ (∀ entry ∈ AnyOp, entry ∈ classOps c)
    ∧ (∀ entry ∈ AnyOp, ∀ other ∈ classOps c, other.1 = entry.1 → other.2 = entry.2)
    ∧ (∀ entry ∈ classOps c, entry.1 ∉ opNames TypeClass.Any → 17 ≤ entry.2) := by
  cases c <;> decide

end AST

/-! ## Theorems: S-expression nodes -/

namespace SExp

theorem read_lt {h : Heap} {n : NodeId} {x : Node} (hr : h.read n = some x) :
    n < h.length := by
  unfold Heap.read at hr
  by_contra hge
  rw [List.getElem?_eq_none (Nat.le_of_not_lt hge)] at hr
  cases hr

theorem read_write_same {h : Heap} {n : NodeId} (x : Node) (hn : n < h.length) :
    (h.write n x).read n = some x := by
  unfold Heap.read Heap.write
  rw [List.getElem?_set_self hn]

theorem read_write_ne {h : Heap} {n m : NodeId} (x : Node) (hne : m ≠ n) :
    (h.write n x).read m = h.read m := by
  unfold Heap.read Heap.write
  rw [List.getElem?_set_ne (Ne.symm hne)]

theorem length_write (h : Heap) (n : NodeId) (x : Node) :
    (h.write n x).length = h.length := by
  unfold Heap.write
  rw [List.length_set]

theorem read_alloc_new (h : Heap) (x : Node) : (h.alloc x).2.read h.length = some x := by
  unfold Heap.read Heap.alloc
  simp

theorem read_alloc_old {h : Heap} {n : NodeId} (x : Node) (hn : n < h.length) :
    (h.alloc x).2.read n = h.read n := by
  unfold Heap.read Heap.alloc
  simp only
  rw [List.getElem?_append_left hn]

theorem nextOf_write_ne {h : Heap} {n m : NodeId} (x : Node) (hne : m ≠ n) :
    nextOf (h.write n x) m = nextOf h m := by
  unfold nextOf
  rw [read_write_ne x hne]

theorem nextOf_write_same {h : Heap} {n : NodeId} (x : Node) (hn : n < h.length) :
    nextOf (h.write n x) n = some x.nextSibling := by
  unfold nextOf
  rw [read_write_same x hn]
  rfl

theorem nextOf_write_keep {h : Heap} {n : NodeId} {t : Node} (x : Node)
    (hr : h.read n = some t) (hx : x.nextSibling = t.nextSibling) (m : NodeId) :
    nextOf (h.write n x) m = nextOf h m := by
  by_cases hm : m = n
  · subst hm
    rw [nextOf_write_same x (read_lt hr)]
    unfold nextOf
    rw [hr, hx]
    rfl
  · exact nextOf_write_ne x hm

theorem isChain_nil {h : Heap} {start : Option NodeId} :
    IsChain h start [] ↔ start = none := by
  unfold IsChain
  exact Iff.rfl

theorem isChain_cons {h : Heap} {start : Option NodeId} {n : NodeId} {rest : List NodeId} :
    IsChain h start (n :: rest)
      ↔ start = some n ∧ ∃ next, nextOf h n = some next ∧ IsChain h next rest := by
  rw [IsChain]
  cases hn : nextOf h n with
  | none => simp
  | some next => simp

theorem isChain_congr {h h' : Heap} {ns : List NodeId}
    (hsame : ∀ x ∈ ns, nextOf h' x = nextOf h x) {start : Option NodeId}
    (hc : IsChain h start ns) : IsChain h' start ns := by
  induction ns generalizing start with
  | nil => exact hc
  | cons n rest ih =>
    rw [isChain_cons] at hc ⊢
    obtain ⟨hs, next, hn, hrest⟩ := hc
    refine ⟨hs, next, ?_, ih (fun x hx => hsame x (List.mem_cons_of_mem _ hx)) hrest⟩
    rw [hsame n (List.mem_cons_self _ _), hn]

theorem isChain_head {h : Heap} {start : Option NodeId} {ns : List NodeId}
    (hc : IsChain h start ns) : start = ns.head? := by
  cases ns with
  | nil => exact hc
  | cons n rest => exact (isChain_cons.mp hc).1

theorem isChain_unique {h : Heap} {start : Option NodeId} {l1 l2 : List NodeId}
    (h1 : IsChain h start l1) (h2 : IsChain h start l2) : l1 = l2 := by
  induction l1 generalizing start l2 with
  | nil =>
    cases l2 with
    | nil => rfl
    | cons m rest2 =>
      rw [isChain_nil] at h1
      rw [isChain_cons] at h2
      rw [h1] at h2
      cases h2.1
  | cons n rest ih =>
    rw [isChain_cons] at h1
    obtain ⟨hs, next, hn, hrest⟩ := h1
    cases l2 with
    | nil =>
      rw [isChain_nil] at h2
      rw [h2] at hs
      cases hs
    | cons m rest2 =>
      rw [isChain_cons] at h2
      obtain ⟨hs2, next2, hn2, hrest2⟩ := h2
      rw [hs] at hs2
      cases hs2
      rw [hn] at hn2
      cases hn2
      rw [ih hrest hrest2]

theorem isChain_suffix {h : Heap} {start : Option NodeId} {pre post : List NodeId}
    (hc : IsChain h start (pre ++ post)) : IsChain h post.head? post := by
  induction pre generalizing start with
  | nil =>
    rw [List.nil_append] at hc
    rw [← isChain_head hc]
    exact hc
  | cons n rest ih =>
    rw [List.cons_append, isChain_cons] at hc
    obtain ⟨-, next, -, hrest⟩ := hc
    exact ih hrest

theorem isChain_nodup {h : Heap} {start : Option NodeId} {ns : List NodeId}
    (hc : IsChain h start ns) : ns.Nodup := by
  induction ns generalizing start with
  | nil => exact List.nodup_nil
  | cons n rest ih =>
    have hc' := hc
    rw [isChain_cons] at hc
    obtain ⟨-, next, hn, hrest⟩ := hc
    refine List.nodup_cons.mpr ⟨?_, ih hrest⟩
    intro hmem
    obtain ⟨pre, post, hsplit⟩ := List.append_of_mem hmem
    have hrest' : IsChain h next (pre ++ n :: post) := hsplit ▸ hrest
    have hsuf : IsChain h (some n) (n :: post) := isChain_suffix hrest'
    rw [isChain_cons] at hsuf
    obtain ⟨-, next2, hn2, hpost⟩ := hsuf
    rw [hn] at hn2
    cases hn2
    have heq := isChain_unique hrest hpost
    have hlen := congrArg List.length heq
    rw [hsplit] at hlen
    simp at hlen
    omega

theorem lastSibling_chain {h : Heap} {b : NodeId} {bs : List NodeId} {fuel : Nat}
    (hc : IsChain h (some b) bs) (hfuel : bs.length ≤ fuel) :
    ∃ last, lastSibling h fuel b = some last ∧ bs.getLast? = some last := by
  induction bs generalizing b fuel with
  | nil =>
    rw [isChain_nil] at hc
    cases hc
  | cons n rest ih =>
    rw [isChain_cons] at hc
    obtain ⟨hs, next, hn, hrest⟩ := hc
    cases hs
    cases fuel with
    | zero => simp at hfuel
    | succ fuel =>
      unfold nextOf at hn
      cases hr : h.read n with
      | none => rw [hr] at hn; cases hn
      | some target =>
        rw [hr] at hn
        simp only [Option.map_some', Option.some.injEq] at hn
        unfold lastSibling
        rw [hr]
        cases next with
        | none =>
          have : rest = [] := by
            cases rest with
            | nil => rfl
            | cons m r =>
              rw [isChain_cons] at hrest
              cases hrest.1
          subst this
          simp only [hn]
          exact ⟨n, rfl, rfl⟩
        | some m =>
          simp only [hn]
          have hlen : rest.length ≤ fuel := by
            simp only [List.length_cons] at hfuel
            omega
          obtain ⟨last, h1, h2⟩ := ih hrest hlen
          refine ⟨last, h1, ?_⟩
          cases rest with
          | nil => cases h2
          | cons m2 r => rw [List.getLast?_cons_cons]; exact h2

end SExp

namespace SExp

theorem advance_chain {h : Heap} {pre post : List NodeId} {start : Option NodeId}
    (hc : IsChain h start (pre ++ post)) (loc : TextFileLocus) :
    ∃ it, NodeIt.advance h pre.length { node := start, previousLocus := loc } = some it
      ∧ it.node = post.head?
      ∧ (pre = [] → it.previousLocus = loc)
      ∧ (∀ n, pre.getLast? = some n →
          ∃ node, h.read n = some node ∧ it.previousLocus = node.endLocus) := by
  induction pre generalizing start loc with
  | nil =>
    rw [List.nil_append] at hc
    refine ⟨_, rfl, isChain_head hc, fun _ => rfl, ?_⟩
    intro n hn
    cases hn
  | cons a rest ih =>
    rw [List.cons_append, isChain_cons] at hc
    obtain ⟨hs, next, hn, hrest⟩ := hc
    subst hs
    unfold nextOf at hn
    cases hr : h.read a with
    | none => rw [hr] at hn; cases hn
    | some target =>
      rw [hr] at hn
      simp only [Option.map_some', Option.some.injEq] at hn
      obtain ⟨it, h1, h2, h3, h4⟩ := ih hrest target.endLocus
      refine ⟨it, ?_, h2, ?_, ?_⟩
      · simp only [List.length_cons, NodeIt.advance, NodeIt.preIncrement, hr, hn]
        exact h1
      · intro hnil
        cases hnil
      · intro n hlast
        cases rest with
        | nil =>
          simp only [List.getLast?_singleton, Option.some.injEq] at hlast
          subst hlast
          exact ⟨target, hr, h3 rfl⟩
        | cons b r =>
          rw [List.getLast?_cons_cons] at hlast
          exact h4 n hlast

/-- C19: on a sibling chain `ns`, split anywhere as `pre ++ post`, the iterator
constructed on the first node points, after as many increments as `pre` has nodes,
at the first node of `post` (at nothing when `post` is empty), and its
`previousLocus` is the `endLocus` of the last node of `pre` (the locus it was
constructed with when `pre` is empty); after as many increments as the chain has
nodes it is the end iterator, which converts to false and which an increment leaves
as it is.  The post-increment returns the iterator as it was and advances it like the
pre-increment, and `getChildIt` on a `Tree` or `Attribute` node gives the iterator on
its first child with the parent's `startLocus`. -/
theorem nodeIt_iterates_siblings (h : Heap) (start : Option NodeId) (ns : List NodeId)
    (loc0 : TextFileLocus) (hchain : IsChain h start ns) :
    (∀ pre post, ns = pre ++ post →
        ∃ it, NodeIt.advance h pre.length { node := start, previousLocus := loc0 } = some it
          ∧ it.node = post.head?
          ∧ (pre = [] → it.previousLocus = loc0)
          ∧ (∀ n, pre.getLast? = some n →
              ∃ node, h.read n = some node ∧ it.previousLocus = node.endLocus))
    ∧ (∃ last, NodeIt.advance h ns.length { node := start, previousLocus := loc0 } = some last
          ∧ last.node = none ∧ last.toBool = false
          ∧ NodeIt.preIncrement h last = some last)
    ∧ (∀ loc, NodeIt.preIncrement h { node := none, previousLocus := loc }
          = some { node := none, previousLocus := loc })
    ∧ (∀ it it1, NodeIt.preIncrement h it = some it1 →
          NodeIt.postIncrement h it = some (it, it1))
    ∧ (∀ (p : NodeId) (node : Node) (first : Option NodeId) (loc : TextFileLocus),
          h.read p = some node →
          node.type = NodeType.Tree ∨ node.type = NodeType.Attribute →
          node.value = NodeValue.children first →
          NodeIt.getChildIt h { node := some p, previousLocus := loc }
            = some { node := first, previousLocus := node.startLocus }) := by
  refine ⟨?_, ?_, ?_, ?_, ?_⟩
  · intro pre post hsplit
    subst hsplit
    exact advance_chain hchain loc0
  · have hc : IsChain h start (ns ++ []) := by rw [List.append_nil]; exact hchain
    obtain ⟨it, h1, h2, -⟩ := advance_chain hc loc0
    simp only [List.head?_nil] at h2
    refine ⟨it, h1, h2, ?_, ?_⟩
    · simp [NodeIt.toBool, h2]
    · simp [NodeIt.preIncrement, h2]
  · intro loc
    rfl
  · intro it it1 hinc
    simp [NodeIt.postIncrement, hinc]
  · intro p node first loc hr hty hval
    simp [NodeIt.getChildIt, hr, hty, hval]

/-- C19 at a concrete input: a heap of two sibling nodes 0 and 1; the iterator
constructed on node 0 is at node 1 after one increment and at the end after two. -/
theorem nodeIt_iterates_siblings_witness :
    IsChain
        [{ Node.init TextFileLocus.origin NodeType.Tree with
            nextSibling := some 1
            endLocus := { newlines := 1, tabs := 0, characters := 4 } },
         { Node.init TextFileLocus.origin NodeType.Tree with
            endLocus := { newlines := 2, tabs := 0, characters := 9 } }]
        (some 0) [0, 1]
    ∧ NodeIt.advance
        [{ Node.init TextFileLocus.origin NodeType.Tree with
            nextSibling := some 1
            endLocus := { newlines := 1, tabs := 0, characters := 4 } },
         { Node.init TextFileLocus.origin NodeType.Tree with
            endLocus := { newlines := 2, tabs := 0, characters := 9 } }]
        1 (NodeIt.ofNode (some 0))
      = some { node := some 1, previousLocus := { newlines := 1, tabs := 0, characters := 4 } }
    ∧ ∃ last, NodeIt.advance
        [{ Node.init TextFileLocus.origin NodeType.Tree with
            nextSibling := some 1
            endLocus := { newlines := 1, tabs := 0, characters := 4 } },
         { Node.init TextFileLocus.origin NodeType.Tree with
            endLocus := { newlines := 2, tabs := 0, characters := 9 } }]
        2 (NodeIt.ofNode (some 0)) = some last
      ∧ last.node = none ∧ last.toBool = false :=
  have hc : IsChain
      [{ Node.init TextFileLocus.origin NodeType.Tree with
          nextSibling := some 1
          endLocus := { newlines := 1, tabs := 0, characters := 4 } },
       { Node.init TextFileLocus.origin NodeType.Tree with
          endLocus := { newlines := 2, tabs := 0, characters := 9 } }]
      (some 0) [0, 1] := by
    simp [IsChain, nextOf, Heap.read, Node.init]
  ⟨hc, by decide,
    (nodeIt_iterates_siblings _ (some 0) [0, 1] TextFileLocus.origin hc).2.1.imp
      fun _ hx => ⟨hx.1, hx.2.1, hx.2.2.1⟩⟩

end SExp

namespace SExp

theorem isChain_extend {h h' : Heap} {xs ys : List NodeId} {l : NodeId}
    {start next : Option NodeId}
    (hc : IsChain h start (xs ++ [l]))
    (hl : nextOf h' l = some next)
    (hsame : ∀ x ∈ xs, nextOf h' x = nextOf h x)
    (hys : IsChain h' next ys) : IsChain h' start (xs ++ l :: ys) := by
  induction xs generalizing start with
  | nil =>
    rw [List.nil_append] at hc ⊢
    rw [isChain_cons] at hc ⊢
    exact ⟨hc.1, next, hl, hys⟩
  | cons a rest ih =>
    rw [List.cons_append, isChain_cons] at hc
    obtain ⟨hs, nx, hn, hrest⟩ := hc
    rw [List.cons_append, isChain_cons]
    refine ⟨hs, nx, ?_, ih hrest (fun x hx => hsame x (List.mem_cons_of_mem _ hx))⟩
    rw [hsame a (List.mem_cons_self _ _), hn]

theorem isChain_last_read {h : Heap} {start : Option NodeId} {ys : List NodeId} {l : NodeId}
    (hc : IsChain h start (ys ++ [l])) :
    ∃ target, h.read l = some target ∧ target.nextSibling = none := by
  have hs := isChain_suffix hc
  simp only [List.head?_cons] at hs
  rw [isChain_cons] at hs
  obtain ⟨-, next, hn, hnil⟩ := hs
  rw [isChain_nil] at hnil
  subst hnil
  unfold nextOf at hn
  cases hr : h.read l with
  | none => rw [hr] at hn; cases hn
  | some target =>
    rw [hr] at hn
    simp only [Option.map_some', Option.some.injEq] at hn
    exact ⟨target, rfl, hn⟩

theorem type_write_keep {h : Heap} {n : NodeId} {t : Node} (x : Node)
    (hr : h.read n = some t) (hx : x.type = t.type) (m : NodeId) :
    ((h.write n x).read m).map Node.type = (h.read m).map Node.type := by
  by_cases hm : m = n
  · subst hm
    rw [read_write_same x (read_lt hr), hr]
    simp [hx]
  · rw [read_write_ne x hm]

/-- What one `append` of a sibling chain does to a stream that appends through the
root or through the children of a node. -/
theorem append_chain_spec {h : Heap} {st : NodeOutputStream} {origin : NodeLink}
    {xs bs : List NodeId} {b : NodeId} {fuel : Nat}
    (horigin : origin = NodeLink.rootNode ∨ ∃ p, origin = NodeLink.children p)
    (hat : AppendsAt h st origin xs)
    (hbs : IsChain h (some b) bs)
    (hdisj : ∀ x ∈ xs, x ∉ bs)
    (hfuel : bs.length ≤ fuel) :
    ∃ h' st', NodeOutputStream.append fuel (some b) h st = some (h', st')
      ∧ AppendsAt h' st' origin (xs ++ bs)
      ∧ h'.length = h.length
      ∧ (∀ m, xs.getLast? ≠ some m → nextOf h' m = nextOf h m)
      ∧ (∀ m, (h'.read m).map Node.type = (h.read m).map Node.type)
      ∧ (origin ≠ NodeLink.rootNode ∨ xs ≠ [] → st'.rootNode = st.rootNode)
      ∧ (origin = NodeLink.rootNode → xs = [] → st'.rootNode = some b)
      ∧ (∀ m, xs.getLast? ≠ some m → (origin = NodeLink.children m → xs ≠ []) →
          h'.read m = h.read m) := by
  obtain ⟨⟨start, hstart, hchain⟩, hlink⟩ := hat
  have hbne : bs ≠ [] := by
    intro hnil
    subst hnil
    rw [isChain_nil] at hbs
    cases hbs
  cases hlast : xs.getLast? with
  | none =>
    have hxs : xs = [] := List.getLast?_eq_none_iff.mp hlast
    subst hxs
    have hlink' : st.nextNodeLink = origin := by
      rw [hlink]; rfl
    rcases horigin with hroot | ⟨p, hp⟩
    · subst hroot
      obtain ⟨last, hl1, hl2⟩ := lastSibling_chain hbs hfuel
      refine ⟨h, { st with rootNode := some b, nextNodeLink := NodeLink.nextSibling last },
        ?_, ?_, rfl, fun _ _ => rfl, fun _ => rfl, ?_, fun _ _ => rfl, fun _ _ _ => rfl⟩
      · simp only [NodeOutputStream.append, hlink', writeLink, hl1]
      · refine ⟨⟨some b, rfl, ?_⟩, ?_⟩
        · rw [List.nil_append]; exact hbs
        · simp only [List.nil_append, linkAfter, hl2]
      · intro hor
        rcases hor with hor | hor
        · exact absurd rfl hor
        · exact absurd rfl hor
    · subst hp
      rw [isChain_nil] at hchain
      subst hchain
      simp only [readLink] at hstart
      cases hr : h.read p with
      | none => rw [hr] at hstart; cases hstart
      | some target =>
        have hnext : ∀ m, nextOf (h.write p { target with value := NodeValue.children (some b) }) m
            = nextOf h m := nextOf_write_keep _ hr rfl
        have hbs' : IsChain (h.write p { target with value := NodeValue.children (some b) })
            (some b) bs := isChain_congr (fun x _ => hnext x) hbs
        obtain ⟨last, hl1, hl2⟩ := lastSibling_chain hbs' hfuel
        refine ⟨h.write p { target with value := NodeValue.children (some b) },
          { st with nextNodeLink := NodeLink.nextSibling last },
          ?_, ?_, length_write _ _ _, fun m _ => hnext m,
          type_write_keep _ hr rfl, fun _ => rfl, ?_, ?_⟩
        · simp only [NodeOutputStream.append, hlink', writeLink, hr, hl1]
        · refine ⟨⟨some b, ?_, ?_⟩, ?_⟩
          · simp only [readLink]
            rw [read_write_same _ (read_lt hr)]
          · rw [List.nil_append]; exact hbs'
          · simp only [List.nil_append, linkAfter, hl2]
        · intro hor
          cases hor
        · intro m _ hm
          apply read_write_ne
          intro hmp
          subst hmp
          exact hm rfl rfl
  | some l =>
    obtain ⟨ys, hys⟩ := List.getLast?_eq_some_iff.mp hlast
    subst hys
    have hlink' : st.nextNodeLink = NodeLink.nextSibling l := by
      rw [hlink]
      simp only [linkAfter, hlast]
    obtain ⟨target, hr, -⟩ := isChain_last_read hchain
    have hnodup := isChain_nodup hchain
    have hl_notin : l ∉ ys := by
      intro hmem
      have := List.nodup_append.mp hnodup
      exact this.2.2 hmem (List.mem_singleton_self l)
    have hl_bs : l ∉ bs := hdisj l (List.mem_append_right _ (List.mem_singleton_self l))
    have hne : ∀ m, m ≠ l →
        nextOf (h.write l { target with nextSibling := some b }) m = nextOf h m :=
      fun m hm => nextOf_write_ne _ hm
    have hbs' : IsChain (h.write l { target with nextSibling := some b }) (some b) bs :=
      isChain_congr (fun x hx => hne x (fun hxl => hl_bs (hxl ▸ hx))) hbs
    obtain ⟨last, hl1, hl2⟩ := lastSibling_chain hbs' hfuel
    have hself : nextOf (h.write l { target with nextSibling := some b }) l = some (some b) :=
      nextOf_write_same _ (read_lt hr)
    have hchain' : IsChain (h.write l { target with nextSibling := some b }) start
        (ys ++ l :: bs) :=
      isChain_extend hchain hself
        (fun x hx => hne x (fun hxl => hl_notin (hxl ▸ hx))) hbs'
    refine ⟨h.write l { target with nextSibling := some b },
      { st with nextNodeLink := NodeLink.nextSibling last },
      ?_, ?_, length_write _ _ _, ?_, type_write_keep _ hr rfl, fun _ => rfl, ?_, ?_⟩
    · simp only [NodeOutputStream.append, hlink', writeLink, hr, hl1]
    · refine ⟨⟨start, ?_, ?_⟩, ?_⟩
      · rcases horigin with hroot | ⟨p, hp⟩
        · subst hroot
          exact hstart
        · subst hp
          simp only [readLink] at hstart ⊢
          by_cases hpl : p = l
          · subst hpl
            rw [read_write_same _ (read_lt hr)]
            rw [hr] at hstart
            exact hstart
          · rw [read_write_ne _ hpl]
            exact hstart
      · rw [List.append_assoc]
        exact hchain'
      · simp only [linkAfter, List.getLast?_append, hl2, Option.or_some]
    · intro m hm
      apply hne
      intro hml
      subst hml
      exact hm rfl
    · intro _ hnil
      simp at hnil
    · intro m hm _
      apply read_write_ne
      intro hml
      subst hml
      exact hm rfl

end SExp

namespace SExp

/-- C16: on a stream that appends at top level and whose top-level chain is `tops`,
`operator<<(Node*)` on the head of a sibling chain `bs` that shares no node with
`tops` succeeds (given fuel for the walk along `bs`), makes the top-level chain
`tops ++ bs` and leaves `nextNodeLink` at the `nextSibling` of the last node of `bs`,
so that the stream again appends at top level; `operator<<` on any substream whose
`rootNode` is the head of `bs` has the same result; a null node, and a substream
whose `rootNode` is null (the stream made by the constructor is one), leave heap and
stream as they are.  The stream made by the constructor appends at top level with no
nodes. -/
theorem append_extends_root_chain (h : Heap) (st : NodeOutputStream)
    (tops bs : List NodeId) (b : NodeId) (fuel : Nat)
    (htop : AppendsAt h st NodeLink.rootNode tops)
    (hbs : IsChain h (some b) bs)
    (hdisj : ∀ x ∈ tops, x ∉ bs)
    (hfuel : bs.length ≤ fuel) :
    (∃ h1 st1 last, NodeOutputStream.shiftNode fuel (some b) h st = some (h1, st1)
        ∧ IsChain h1 st1.rootNode (tops ++ bs)
        ∧ bs.getLast? = some last
        ∧ st1.nextNodeLink = NodeLink.nextSibling last
        ∧ AppendsAt h1 st1 NodeLink.rootNode (tops ++ bs))
    ∧ (∀ substream : NodeOutputStream, substream.rootNode = some b →
        ∃ h1 st1 last,
          NodeOutputStream.shiftSubstream fuel substream h st = some (h1, st1)
          ∧ IsChain h1 st1.rootNode (tops ++ bs)
          ∧ bs.getLast? = some last
          ∧ st1.nextNodeLink = NodeLink.nextSibling last
          ∧ AppendsAt h1 st1 NodeLink.rootNode (tops ++ bs)
          ∧ NodeOutputStream.shiftNode fuel (some b) h st = some (h1, st1))
    ∧ NodeOutputStream.shiftNode fuel none h st = some (h, st)
    ∧ (∀ substream : NodeOutputStream, substream.rootNode = none →
        NodeOutputStream.shiftSubstream fuel substream h st = some (h, st))
    ∧ NodeOutputStream.shiftSubstream fuel NodeOutputStream.init h st = some (h, st)
    ∧ AppendsAt h NodeOutputStream.init NodeLink.rootNode [] := by
  have hnode : ∃ h1 st1 last, NodeOutputStream.shiftNode fuel (some b) h st = some (h1, st1)
      ∧ IsChain h1 st1.rootNode (tops ++ bs)
      ∧ bs.getLast? = some last
      ∧ st1.nextNodeLink = NodeLink.nextSibling last
      ∧ AppendsAt h1 st1 NodeLink.rootNode (tops ++ bs) := by
    obtain ⟨h1, st1, happ, hat, -⟩ :=
      append_chain_spec (Or.inl rfl) htop hbs hdisj hfuel
    obtain ⟨last, -, hlast⟩ := lastSibling_chain hbs hfuel
    have hat' := hat
    obtain ⟨⟨start, hstart, hchain⟩, hlink⟩ := hat
    simp only [readLink, Option.some.injEq] at hstart
    subst hstart
    refine ⟨h1, st1, last, happ, hchain, hlast, ?_, hat'⟩
    rw [hlink]
    simp only [linkAfter, List.getLast?_append, hlast, Option.or_some]
  refine ⟨hnode, ?_, rfl, ?_, rfl, ?_⟩
  · intro substream hroot
    obtain ⟨h1, st1, last, happ, hchain, hlast, hlink, hat⟩ := hnode
    refine ⟨h1, st1, last, ?_, hchain, hlast, hlink, hat, happ⟩
    simp only [NodeOutputStream.shiftSubstream, NodeOutputStream.getRoot, hroot]
    exact happ
  · intro substream hroot
    simp only [NodeOutputStream.shiftSubstream, NodeOutputStream.getRoot, hroot,
      NodeOutputStream.append]
  · exact ⟨⟨none, rfl, rfl⟩, rfl⟩

end SExp

namespace SExp

theorem write_alloc (h : Heap) (n0 x : Node) :
    (h.alloc n0).2.write h.length x = (h.alloc x).2 := by
  unfold Heap.alloc Heap.write
  simp

end SExp

namespace SExp

end SExp

namespace SExp

theorem toUInt64_toInt64 (x : Int) : toUInt64 (toInt64 x) = toUInt64 x := by
  unfold toUInt64 toInt64
  have h63 : (2 : Int) ^ 63 = 9223372036854775808 := by norm_num
  have h64 : (2 : Int) ^ 64 = 18446744073709551616 := by norm_num
  rw [h63, h64]
  omega

theorem magnitude_intptr (i : Int) (hlow : -2 ^ 63 ≤ i) (hhigh : i < 2 ^ 63) :
    (if toInt64 i < 0 then toUInt64 (toInt64 (-(toInt64 (toInt64 i))))
        else toUInt64 (toInt64 i)) = i.natAbs
      ∧ (toInt64 i < 0 ↔ i < 0) := by
  have h63 : (2 : Int) ^ 63 = 9223372036854775808 := by norm_num
  have h64 : (2 : Int) ^ 64 = 18446744073709551616 := by norm_num
  have hid : toInt64 i = i := by
    unfold toInt64
    rw [h63, h64]
    rw [h63] at hlow hhigh
    omega
  rw [hid, hid, toUInt64_toInt64]
  refine ⟨?_, Iff.rfl⟩
  unfold toUInt64
  rw [h64]
  rw [h63] at hlow hhigh
  split <;> omega

theorem magnitude_unsigned (i w : Nat) (hw : w ≤ 64) (hi : i < 2 ^ w) :
    (if ((i % 2 ^ w : Nat) : Int) < 0 then
        toUInt64 (toInt64 (-(toInt64 ((i % 2 ^ w : Nat) : Int))))
      else toUInt64 ((i % 2 ^ w : Nat) : Int)) = i
      ∧ ¬ (((i % 2 ^ w : Nat) : Int) < 0) := by
  have hlt : i < 2 ^ 64 := lt_of_lt_of_le hi (Nat.pow_le_pow_right (by decide) hw)
  have h64 : (2 : Int) ^ 64 = 18446744073709551616 := by norm_num
  have h64n : (2 : Nat) ^ 64 = 18446744073709551616 := by norm_num
  rw [Nat.mod_eq_of_lt hi]
  have hnn : ¬ ((i : Int) < 0) := by omega
  refine ⟨?_, hnn⟩
  rw [if_neg hnn]
  unfold toUInt64
  rw [h64]
  rw [h64n] at hlt
  omega

end SExp

namespace SExp

theorem lastSibling_single {h : Heap} {n : NodeId} {x : Node} (fuel : Nat)
    (hr : h.read n = some x) (hx : x.nextSibling = none) :
    lastSibling h (fuel + 1) n = some n := by
  simp only [lastSibling, hr, hx]

theorem append_fresh {h : Heap} {st : NodeOutputStream} {n : NodeId} {x : Node} (fuel : Nat)
    (hr : h.read n = some x) (hx : x.nextSibling = none)
    (hlink : match st.nextNodeLink with
      | NodeLink.rootNode => True
      | NodeLink.children m => m ≠ n ∧ ∃ target first, h.read m = some target
          ∧ target.value = NodeValue.children first
      | NodeLink.nextSibling m => m ≠ n ∧ ∃ target, h.read m = some target) :
    ∃ h1 st1, NodeOutputStream.append (fuel + 1) (some n) h st = some (h1, st1)
      ∧ h1.read n = some x
      ∧ readLink h1 st1 st.nextNodeLink = some (some n)
      ∧ st1.nextNodeLink = NodeLink.nextSibling n := by
  cases hl : st.nextNodeLink with
  | rootNode =>
    refine ⟨h, { st with rootNode := some n, nextNodeLink := NodeLink.nextSibling n },
      ?_, hr, rfl, rfl⟩
    simp only [NodeOutputStream.append, hl, writeLink, lastSibling_single fuel hr hx]
  | children m =>
    rw [hl] at hlink
    obtain ⟨hne, target, first, hm, -⟩ := hlink
    have hr1 : (h.write m { target with value := NodeValue.children (some n) }).read n
        = some x := by
      rw [read_write_ne _ (Ne.symm hne)]
      exact hr
    refine ⟨h.write m { target with value := NodeValue.children (some n) },
      { st with nextNodeLink := NodeLink.nextSibling n }, ?_, hr1, ?_, rfl⟩
    · simp only [NodeOutputStream.append, hl, writeLink, hm, lastSibling_single fuel hr1 hx]
    · simp only [readLink]
      rw [read_write_same _ (read_lt hm)]
  | nextSibling m =>
    rw [hl] at hlink
    obtain ⟨hne, target, hm⟩ := hlink
    have hr1 : (h.write m { target with nextSibling := some n }).read n = some x := by
      rw [read_write_ne _ (Ne.symm hne)]
      exact hr
    refine ⟨h.write m { target with nextSibling := some n },
      { st with nextNodeLink := NodeLink.nextSibling n }, ?_, hr1, ?_, rfl⟩
    · simp only [NodeOutputStream.append, hl, writeLink, hm, lastSibling_single fuel hr1 hx]
    · simp only [readLink]
      exact nextOf_write_same _ (read_lt hm)

theorem appendInt_spec (fuel : Nat) (i : Int) (h : Heap) (st : NodeOutputStream)
    (hlink : LinkValid h st.nextNodeLink) :
    AppendsIntNode (NodeOutputStream.appendInt (fuel + 1) i h st) h st
      (if i < 0 then NodeType.SignedInt else NodeType.UnsignedInt)
      (if i < 0 then toUInt64 (toInt64 (-(toInt64 i))) else toUInt64 i) := by
  have hsplit : h.alloc (Node.init TextFileLocus.origin NodeType.Tree)
      = (h.length, (h.alloc (Node.init TextFileLocus.origin NodeType.Tree)).2) := rfl
  have hfresh : ∀ m (target : Node), h.read m = some target →
      m ≠ h.length ∧ ∀ x : Node, (h.alloc x).2.read m = some target := by
    intro m target hm
    have hlt := read_lt hm
    refine ⟨fun he => ?_, fun x => ?_⟩
    · rw [he] at hlt
      exact Nat.lt_irrefl _ hlt
    · rw [read_alloc_old x hlt]
      exact hm
  have hlink3 : ∀ x : Node, match st.nextNodeLink with
      | NodeLink.rootNode => True
      | NodeLink.children m => m ≠ h.length ∧ ∃ target first, (h.alloc x).2.read m = some target
          ∧ target.value = NodeValue.children first
      | NodeLink.nextSibling m => m ≠ h.length ∧ ∃ target, (h.alloc x).2.read m = some target := by
    intro x
    cases hl : st.nextNodeLink with
    | rootNode => trivial
    | children m =>
      rw [hl] at hlink
      obtain ⟨target, first, hm, hv⟩ := hlink
      exact ⟨(hfresh m target hm).1, target, first, (hfresh m target hm).2 x, hv⟩
    | nextSibling m =>
      rw [hl] at hlink
      obtain ⟨target, hm⟩ := hlink
      exact ⟨(hfresh m target hm).1, target, (hfresh m target hm).2 x⟩
  obtain ⟨h1, st1, happ, hread, hrl, hnl⟩ := append_fresh fuel
    (read_alloc_new h
      { Node.init TextFileLocus.origin NodeType.Tree with
          type := if i < 0 then NodeType.SignedInt else NodeType.UnsignedInt
          value := NodeValue.u64
            (if i < 0 then toUInt64 (toInt64 (-(toInt64 i))) else toUInt64 i) })
    rfl (hlink3 _)
  refine ⟨h1, st1, _, ?_, hread, rfl, rfl, rfl, hrl, hnl⟩
  unfold NodeOutputStream.appendInt
  rw [hsplit]
  simp only [read_alloc_new, write_alloc]
  exact happ

/-- C18: on a stream whose `nextNodeLink` is valid, each integer `operator<<`
allocates and appends one node; for an `intptr` value `i` its type is `SignedInt`
when `i < 0` and `UnsignedInt` otherwise and its `u64` is the absolute value of `i`
(so `2 ^ 63` for the most negative value); for a `uint8`, `uint16`, `uint32` or
`uint64` value the type is `UnsignedInt` and `u64` is the value; for a `bool` the
type is `UnsignedInt` and `u64` is 1 for true and 0 for false. -/
theorem appendInt_sign_magnitude (fuel : Nat) (h : Heap) (st : NodeOutputStream)
    (hlink : LinkValid h st.nextNodeLink) :
    (∀ i : Int, -2 ^ 63 ≤ i → i < 2 ^ 63 →
        AppendsIntNode (NodeOutputStream.shiftIntPtr (fuel + 1) i h st) h st
          (if i < 0 then NodeType.SignedInt else NodeType.UnsignedInt) i.natAbs)
    ∧ (∀ i : Nat, i < 2 ^ 8 →
        AppendsIntNode (NodeOutputStream.shiftUInt8 (fuel + 1) i h st) h st
          NodeType.UnsignedInt i)
    ∧ (∀ i : Nat, i < 2 ^ 16 →
        AppendsIntNode (NodeOutputStream.shiftUInt16 (fuel + 1) i h st) h st
          NodeType.UnsignedInt i)
    ∧ (∀ i : Nat, i < 2 ^ 32 →
        AppendsIntNode (NodeOutputStream.shiftUInt32 (fuel + 1) i h st) h st
          NodeType.UnsignedInt i)
    ∧ (∀ i : Nat, i < 2 ^ 64 →
        AppendsIntNode (NodeOutputStream.shiftUInt64 (fuel + 1) i h st) h st
          NodeType.UnsignedInt i)
    ∧ (∀ b : Bool,
        AppendsIntNode (NodeOutputStream.shiftBool (fuel + 1) b h st) h st
          NodeType.UnsignedInt (if b then 1 else 0))
    ∧ AppendsIntNode (NodeOutputStream.shiftIntPtr (fuel + 1) (-2 ^ 63) h st) h st
        NodeType.SignedInt (2 ^ 63) := by
  have hunsigned : ∀ (w : Nat), w ≤ 64 → ∀ i : Nat, i < 2 ^ w →
      AppendsIntNode (NodeOutputStream.appendInt (fuel + 1) ((i % 2 ^ w : Nat) : Int) h st)
        h st NodeType.UnsignedInt i := by
    intro w hw i hi
    have hspec := appendInt_spec fuel ((i % 2 ^ w : Nat) : Int) h st hlink
    obtain ⟨hmag, hneg⟩ := magnitude_unsigned i w hw hi
    rw [hmag, if_neg hneg] at hspec
    exact hspec
  have hsigned : ∀ i : Int, -2 ^ 63 ≤ i → i < 2 ^ 63 →
      AppendsIntNode (NodeOutputStream.shiftIntPtr (fuel + 1) i h st) h st
        (if i < 0 then NodeType.SignedInt else NodeType.UnsignedInt) i.natAbs := by
    intro i hlow hhigh
    have hspec := appendInt_spec fuel (toInt64 i) h st hlink
    obtain ⟨hmag, hneg⟩ := magnitude_intptr i hlow hhigh
    rw [hmag] at hspec
    by_cases hi : i < 0
    · rw [if_pos (hneg.mpr hi)] at hspec
      rw [if_pos hi]
      exact hspec
    · rw [if_neg (fun hc => hi (hneg.mp hc))] at hspec
      rw [if_neg hi]
      exact hspec
  refine ⟨hsigned, hunsigned 8 (by decide), hunsigned 16 (by decide),
    hunsigned 32 (by decide), hunsigned 64 (by decide), ?_, ?_⟩
  · intro b
    have hspec := appendInt_spec fuel (if b then 1 else 0) h st hlink
    cases b
    · simpa [toUInt64] using hspec
    · simpa [toUInt64] using hspec
  · have := hsigned (-2 ^ 63) (le_refl _) (by norm_num)
    simpa using this

end SExp

namespace SExp

/-- C16 at a concrete input: the stream of `exampleHeap` that holds node 0 receives
the chain of nodes 1 and 2, through `operator<<(Node*)` and through a substream
whose root is node 1, and is left alone by the substream made by the constructor. -/
theorem append_extends_root_chain_witness :
    AppendsAt exampleHeap exampleStream NodeLink.rootNode [0]
    ∧ IsChain exampleHeap (some 1) [1, 2]
    ∧ (∀ x ∈ [0], x ∉ [1, 2])
    ∧ [1, 2].length ≤ 2
    ∧ (∃ h1 st1 last,
        NodeOutputStream.shiftNode 2 (some 1) exampleHeap exampleStream = some (h1, st1)
        ∧ IsChain h1 st1.rootNode ([0] ++ [1, 2])
        ∧ [1, 2].getLast? = some last
        ∧ st1.nextNodeLink = NodeLink.nextSibling last)
    ∧ (∃ h1 st1 last,
        NodeOutputStream.shiftSubstream 2
            { rootNode := some 1, nextNodeLink := NodeLink.nextSibling 2 }
            exampleHeap exampleStream = some (h1, st1)
        ∧ IsChain h1 st1.rootNode ([0] ++ [1, 2])
        ∧ [1, 2].getLast? = some last
        ∧ st1.nextNodeLink = NodeLink.nextSibling last)
    ∧ NodeOutputStream.shiftSubstream 2 NodeOutputStream.init exampleHeap exampleStream
        = some (exampleHeap, exampleStream)
    ∧ NodeOutputStream.shiftSubstream 2
          { rootNode := some 1, nextNodeLink := NodeLink.nextSibling 2 }
          exampleHeap exampleStream
        = some
            ([{ Node.init TextFileLocus.origin NodeType.Tree with nextSibling := some 1 },
              { Node.init TextFileLocus.origin NodeType.Tree with nextSibling := some 2 },
              Node.init TextFileLocus.origin NodeType.Tree],
             { rootNode := some 0, nextNodeLink := NodeLink.nextSibling 2 }) :=
  have hat : AppendsAt exampleHeap exampleStream NodeLink.rootNode [0] :=
    ⟨⟨some 0, rfl, by simp [IsChain, nextOf, Heap.read, exampleHeap, Node.init]⟩, rfl⟩
  have hbs : IsChain exampleHeap (some 1) [1, 2] := by
    simp [IsChain, nextOf, Heap.read, exampleHeap, Node.init]
  have hdisj : ∀ x ∈ [0], x ∉ [1, 2] := by decide
  ⟨hat, hbs, hdisj, by decide,
    (append_extends_root_chain exampleHeap exampleStream [0] [1, 2] 1 2 hat hbs hdisj
      (by decide)).1.imp fun _ hx => hx.imp fun _ hy => hy.imp fun _ hz =>
        ⟨hz.1, hz.2.1, hz.2.2.1, hz.2.2.2.1⟩,
    ((append_extends_root_chain exampleHeap exampleStream [0] [1, 2] 1 2 hat hbs hdisj
      (by decide)).2.1 { rootNode := some 1, nextNodeLink := NodeLink.nextSibling 2 }
        rfl).imp fun _ hx => hx.imp fun _ hy => hy.imp fun _ hz =>
        ⟨hz.1, hz.2.1, hz.2.2.1, hz.2.2.2.1⟩,
    (append_extends_root_chain exampleHeap exampleStream [0] [1, 2] 1 2 hat hbs hdisj
      (by decide)).2.2.2.2.1,
    by decide⟩

/-- C18 at a concrete input: writing the `intptr` value -5 to the stream made by the
constructor, over an empty heap. -/
theorem appendInt_sign_magnitude_witness :
    LinkValid [] NodeOutputStream.init.nextNodeLink
    ∧ AppendsIntNode (NodeOutputStream.shiftIntPtr 1 (-5) [] NodeOutputStream.init) []
        NodeOutputStream.init NodeType.SignedInt 5 := by
  have hlink : LinkValid [] NodeOutputStream.init.nextNodeLink := trivial
  refine ⟨hlink, ?_⟩
  have hw := (appendInt_sign_magnitude 0 [] NodeOutputStream.init hlink).1 (-5)
    (by norm_num) (by norm_num)
  simpa using hw

end SExp
